import Mathlib

/-!
# Verification of scuttle-db storage and query-engine claims

Shallow embedding of the scuttle-db Rust sources.  Bytes are modelled as
`Nat` (with `< 256` bounds where relevant), machine integers as `Nat`/`Int`
with explicit wrap-around, `f64` values as opaque 64-bit payloads, and
fallible Rust functions (`Result`, panics) as `Option`/`Except`.

Sections, in dependency order:
1. little-endian byte utilities (as used by `u16/u32/u64/i64::to_le_bytes`);
2. the slotted page (`src/page.rs`);
3. the buffer manager (`src/buffer_manager.rs`);
4. the expression/predicate evaluator and physical-plan execution
   (`src/sql/evaluator/*`, `src/db/database.rs`);
5. the row codec (`src/core/types.rs`, `src/db/null_bitmap.rs`,
   `src/db/table/schema.rs`, `src/db/table/table_def.rs`);
6. the analyzer's binary-operator typing (`src/sql/analyzer.rs`).
-/

/-! ## Little-endian byte utilities -/

/-- `u16::to_le_bytes`. -/
def u16ToLe (x : Nat) : List Nat :=
  [x % 256, x / 256 % 256]

/-- `u16::from_le_bytes`. -/
def u16FromLe (b0 b1 : Nat) : Nat :=
  b0 + 256 * b1

/-- `u32::to_le_bytes`. -/
def u32ToLe (x : Nat) : List Nat :=
  [x % 256, x / 256 % 256, x / 256 ^ 2 % 256, x / 256 ^ 3 % 256]

/-- `u32::from_le_bytes`. -/
def u32FromLe (b0 b1 b2 b3 : Nat) : Nat :=
  b0 + 256 * b1 + 256 ^ 2 * b2 + 256 ^ 3 * b3

/-- `u64::to_le_bytes`. -/
def u64ToLe (x : Nat) : List Nat :=
  [x % 256, x / 256 % 256, x / 256 ^ 2 % 256, x / 256 ^ 3 % 256,
   x / 256 ^ 4 % 256, x / 256 ^ 5 % 256, x / 256 ^ 6 % 256, x / 256 ^ 7 % 256]

/-- `u64::from_le_bytes`. -/
def u64FromLe (bs : List Nat) : Nat :=
  bs.getD 0 0 + 256 * bs.getD 1 0 + 256 ^ 2 * bs.getD 2 0 + 256 ^ 3 * bs.getD 3 0 +
  256 ^ 4 * bs.getD 4 0 + 256 ^ 5 * bs.getD 5 0 + 256 ^ 6 * bs.getD 6 0 +
  256 ^ 7 * bs.getD 7 0

/-- `i64::to_le_bytes`: two's-complement encoding of a signed 64-bit value. -/
def i64ToLe (x : Int) : List Nat :=
  u64ToLe (x % (2 ^ 64 : Nat)).toNat

/-- `i64::from_le_bytes`: decode two's complement. -/
def i64FromLe (bs : List Nat) : Int :=
  let u := u64FromLe bs
  if u < 2 ^ 63 then (u : Int) else (u : Int) - 2 ^ 64

/-- `copy_from_slice` into a list at a byte offset. -/
def listCopy (dst : List Nat) (offset : Nat) (src : List Nat) : List Nat :=
  dst.take offset ++ src ++ dst.drop (offset + src.length)

/-- Read `len` bytes starting at `start` (`&bytes[start..start+len]`). -/
def listSlice (bs : List Nat) (start len : Nat) : List Nat :=
  (bs.drop start).take len

/-! ## Page layer (`src/page.rs`) -/

/-- `PAGE_SIZE` from `src/page.rs`. -/
def PAGE_SIZE : Nat := 8192

/-- `PageType` from `src/page.rs`. -/
inductive PageType where
  | btreeInternal (parent_page_id : Option Nat) (level : Nat)
  | btreeLeaf (next_leaf_page : Option Nat) (prev_leaf_page : Option Nat)
  | table
  | catalog
  deriving DecidableEq, Repr

/-- `PageHeader` from `src/page.rs`: all integer fields are `u32`/`u16`
in Rust; carried as `Nat` with bounds supplied as hypotheses. -/
structure PageHeader where
  page_id : Nat
  page_type : PageType
  lower : Nat
  upper : Nat
  item_count : Nat
  special : Nat
  deriving DecidableEq, Repr

namespace PageHeader

/-- `PageHeader::SIZE`. -/
def SIZE : Nat := 24

/-- `PageHeader::new`. -/
def new (page_id : Nat) (page_type : PageType) : PageHeader :=
  { page_id := page_id
    page_type := page_type
    lower := SIZE
    upper := PAGE_SIZE
    special := PAGE_SIZE
    item_count := 0 }

/-- The `page_type` discriminant byte written by `PageHeader::to_bytes`;
`none` models the `panic!("Unsupported page type")` on B-tree pages. -/
def pageTypeCode : PageType → Option Nat
  | .table => some 0
  | .catalog => some 1
  | _ => none

/-- `PageHeader::to_bytes`: a 24-byte array, fields little-endian at fixed
offsets, remaining bytes zero.  `none` models the panic on B-tree types. -/
def to_bytes (h : PageHeader) : Option (List Nat) :=
  (pageTypeCode h.page_type).map fun code =>
    u32ToLe h.page_id ++ [code] ++ u16ToLe h.lower ++ u16ToLe h.upper ++
      u16ToLe h.item_count ++ u16ToLe h.special ++ List.replicate 11 0

/-- `PageHeader::from_bytes`; `none` models the panics on unknown or
unsupported `page_type` bytes. -/
def from_bytes (data : List Nat) : Option PageHeader :=
  let tcode := data.getD 4 0
  let ptype : Option PageType :=
    if tcode = 0 then some .table
    else if tcode = 1 then some .catalog
    else none
  ptype.map fun pt =>
    { page_id := u32FromLe (data.getD 0 0) (data.getD 1 0) (data.getD 2 0) (data.getD 3 0)
      page_type := pt
      lower := u16FromLe (data.getD 5 0) (data.getD 6 0)
      upper := u16FromLe (data.getD 7 0) (data.getD 8 0)
      item_count := u16FromLe (data.getD 9 0) (data.getD 10 0)
      special := u16FromLe (data.getD 11 0) (data.getD 12 0) }

end PageHeader

/-- `ItemPointer` from `src/page.rs` (`offset: u16, length: u16, flags: u8`). -/
structure ItemPointer where
  offset : Nat
  length : Nat
  flags : Nat
  deriving DecidableEq, Repr

namespace ItemPointer

/-- `ItemPointer::SIZE` (5 bytes). -/
def SIZE : Nat := 5

/-- `ItemPointer::DELETED_FLAG` (bit 0). -/
def DELETED_FLAG : Nat := 1

/-- `ItemPointer::new`. -/
def new (offset length : Nat) : ItemPointer :=
  { offset := offset, length := length, flags := 0 }

/-- `ItemPointer::is_deleted`. -/
def is_deleted (ip : ItemPointer) : Bool :=
  ip.flags &&& DELETED_FLAG ≠ 0

/-- `ItemPointer::mark_deleted`. -/
def mark_deleted (ip : ItemPointer) : ItemPointer :=
  { ip with flags := ip.flags ||| DELETED_FLAG }

/-- `ItemPointer::to_bytes`. -/
def to_bytes (ip : ItemPointer) : List Nat :=
  u16ToLe ip.offset ++ u16ToLe ip.length ++ [ip.flags]

/-- `ItemPointer::from_bytes`. -/
def from_bytes (data : List Nat) : ItemPointer :=
  { offset := u16FromLe (data.getD 0 0) (data.getD 1 0)
    length := u16FromLe (data.getD 2 0) (data.getD 3 0)
    flags := data.getD 4 0 }

end ItemPointer

/-- `Page` from `src/page.rs`: header plus the `PAGE_SIZE - 24`-byte data
region (`data.length = 8168` is carried as a hypothesis where needed). -/
structure Page where
  header : PageHeader
  data : List Nat
  deriving DecidableEq, Repr

namespace Page

/-- `Page::new`. -/
def new (page_id : Nat) (page_type : PageType) : Page :=
  { header := PageHeader.new page_id page_type
    data := List.replicate (PAGE_SIZE - PageHeader.SIZE) 0 }

/-- `Page::to_bytes`: header bytes followed by the raw data region.
`none` models the header-serialization panic on B-tree types. -/
def to_bytes (p : Page) : Option (List Nat) :=
  p.header.to_bytes.map (· ++ p.data)

/-- `Page::from_bytes`. -/
def from_bytes (bytes : List Nat) : Option Page :=
  (PageHeader.from_bytes (bytes.take PageHeader.SIZE)).map fun h =>
    { header := h, data := bytes.drop PageHeader.SIZE }

/-- `Page::free_space` (`upper - lower`, a `u16` subtraction). -/
def free_space (p : Page) : Nat :=
  p.header.upper - p.header.lower

/-- `Page::item_pointers`: `chunks_exact(5).take(item_count)` decoded.
`chunks_exact` yields only complete 5-byte chunks, hence the `min`. -/
def item_pointers (p : Page) : List ItemPointer :=
  (List.range (min p.header.item_count (p.data.length / ItemPointer.SIZE))).map
    fun i => ItemPointer.from_bytes (listSlice p.data (i * ItemPointer.SIZE) ItemPointer.SIZE)

/-- `Page::add_data`.  Returns the new item id and the updated page;
`none` is the "Not enough space in the page to add data." error. -/
def add_data (p : Page) (data : List Nat) : Option (Nat × Page) :=
  let needed_space := data.length + ItemPointer.SIZE
  if p.free_space < needed_space then none
  else
    let upper' := p.header.upper - data.length
    let data_offset := upper' - PageHeader.SIZE
    let d1 := listCopy p.data data_offset data
    let item_pointer := ItemPointer.new upper' data.length
    let offset := p.header.item_count * ItemPointer.SIZE
    let d2 := listCopy d1 offset item_pointer.to_bytes
    let item_id := p.header.item_count
    some (item_id,
      { header := { p.header with
          upper := upper'
          lower := p.header.lower + ItemPointer.SIZE
          item_count := p.header.item_count + 1 }
        data := d2 })

/-- `Page::get_item`:
`item_pointers().nth(item_id)` then the payload slice.  Note the source
does NOT consult the deleted flag.  `none` is the "Item not found." error;
the slice itself can panic on malformed pointers, which well-formedness
hypotheses exclude below. -/
def get_item (p : Page) (item_id : Nat) : Option (List Nat) :=
  (p.item_pointers.get? item_id).map fun item_pointer =>
    listSlice p.data (item_pointer.offset - PageHeader.SIZE) item_pointer.length

/-- `Page::delete_item`: sets the deleted flag on the pointer bytes in
place; `none` is the "Item ID out of bounds." error. -/
def delete_item (p : Page) (item_id : Nat) : Option Page :=
  if p.header.item_count ≤ item_id then none
  else
    let start := item_id * ItemPointer.SIZE
    let chunk := listSlice p.data start ItemPointer.SIZE
    let ip := (ItemPointer.from_bytes chunk).mark_deleted
    some { p with data := listCopy p.data start ip.to_bytes }

end Page

/-! ## Buffer manager (`src/buffer_manager.rs`)

The buffer pool for one table is modelled as a partial map
`pool : Nat → Option Page`; the table's on-disk file is abstracted by the
outcome of `load_page_from_file`, `file : Nat → Option Page` (`none` covers
any I/O failure, e.g. reading past EOF). -/

namespace BufferManager

/-- `max_pages` in `BufferManager::get_free_page`. -/
def max_pages : Nat := 1000

/-- `BufferManager::get_free_page`.  First a scan over `0..max_pages`
selects the first id that is either cached with `free_space() > size` or
not cached at all; `.error` is "No free page available.".  For an uncached
id the page is loaded from file, or a fresh `Table` page is created when
the load fails, and cached.  Returns the chosen id, the returned page and
the updated pool. -/
def get_free_page (pool : Nat → Option Page) (file : Nat → Option Page) (size : Nat) :
    Except String (Nat × Page × (Nat → Option Page)) :=
  match (List.range max_pages).find? (fun page_id =>
      match pool page_id with
      | some p => decide (p.free_space > size)
      | none => true) with
  | none => .error "No free page available."
  | some page_id =>
    match pool page_id with
    | some p => .ok (page_id, p, pool)
    | none =>
      let pg := match file page_id with
        | some loaded_page => loaded_page
        | none => Page.new page_id .table
      .ok (page_id, pg, fun i => if i = page_id then some pg else pool i)

/-- `BufferManager::save_page`, write-back step.  The Rust code opens the
table file with `File::create`, which TRUNCATES it to length zero, then
seeks to `page_id * PAGE_SIZE` and writes the page image; the bytes below
the seek offset are a hole and read back as zeros.  The resulting file
contents therefore do not depend on the previous file contents at all. -/
def save_page_file (page : Page) (page_id : Nat) : Option (List Nat) :=
  page.to_bytes.map fun bs => List.replicate (page_id * PAGE_SIZE) 0 ++ bs

end BufferManager

/-! ## Expression and predicate evaluator
(`src/db/table.rs` values, `src/sql/parser.rs` AST,
`src/sql/evaluator/mod.rs`, `src/sql/evaluator/expression.rs`,
`src/sql/evaluator/predicate.rs`)

Machine floats (`f64`) are abstracted as opaque 64-bit payloads of type
`Nat`; the primitive float operations the evaluator uses are collected in
a `FloatOps` parameter, so every theorem below holds for every
interpretation of float arithmetic. -/

/-- The primitive `f64` operations used by the evaluator: arithmetic,
`as f64` casts from `i64`, the `== 0.0` test, `<`/`>` (via flipped `lt`),
the epsilon comparison `(a - b).abs() < f64::EPSILON` from `values_equal`,
and the derived `PartialEq` used by `IS` predicates. -/
structure FloatOps where
  add : Nat → Nat → Nat
  sub : Nat → Nat → Nat
  mul : Nat → Nat → Nat
  div : Nat → Nat → Nat
  ofInt : Int → Nat
  isZero : Nat → Bool
  lt : Nat → Nat → Bool
  eqEps : Nat → Nat → Bool
  rustEq : Nat → Nat → Bool

/-- A trivial interpretation of the float primitives, used to instantiate
closed witnesses; no theorem depends on the values chosen here. -/
def trivFloatOps : FloatOps :=
  { add := fun _ _ => 0, sub := fun _ _ => 0, mul := fun _ _ => 0
    div := fun _ _ => 0, ofInt := fun _ => 0, isZero := fun _ => false
    lt := fun _ _ => false, eqEps := fun _ _ => false, rustEq := fun _ _ => false }

/-- `Value` from `src/db/table.rs` (the evaluator's value type). -/
inductive Value where
  | Integer (i : Int)
  | Text (s : String)
  | Boolean (b : Bool)
  | Float (bits : Nat)
  | Null
  deriving DecidableEq, Repr

/-- `DataType` from `src/db/table.rs`. -/
inductive DataType where
  | Integer
  | Text
  | VarChar (max : Nat)
  | Boolean
  | Float
  deriving DecidableEq, Repr

/-- `Value::data_type`. -/
def Value.data_type : Value → Option DataType
  | .Integer _ => some .Integer
  | .Text _ => some .Text
  | .Boolean _ => some .Boolean
  | .Float _ => some .Float
  | .Null => none

/-- `ColumnDefinition` from `src/db/table.rs`. -/
structure ColumnDefinition where
  name : String
  data_type : DataType
  nullable : Bool
  deriving DecidableEq, Repr

/-- `Schema` from `src/db/table.rs`. -/
structure Schema where
  columns : List ColumnDefinition
  deriving DecidableEq, Repr

/-- `Schema::get_column_index` (`position` of the first name match). -/
def Schema.get_column_index (s : Schema) (name : String) : Option Nat :=
  s.columns.findIdx? (fun col => col.name = name)

/-- `Row` from `src/db/table.rs`. -/
structure Row where
  values : List Value
  deriving DecidableEq, Repr

/-- `Row::new`. -/
def Row.new (values : List Value) : Row := ⟨values⟩

/-- `Row::get_value`. -/
def Row.get_value (r : Row) (index : Nat) : Option Value :=
  r.values.get? index

/-- `LiteralValue` from `src/sql/parser.rs`. -/
inductive LiteralValue where
  | Integer (i : Int)
  | Float (bits : Nat)
  | String (s : String)
  | Boolean (b : Bool)
  | Null
  deriving DecidableEq, Repr

/-- `Operator` from `src/sql/parser.rs`. -/
inductive Operator where
  | Equal
  | NotEqual
  | And
  | Or
  | GreaterThan
  | GreaterThanEqual
  | LessThan
  | LessThanEqual
  | Add
  | Multiply
  | Divide
  | Subtract
  deriving DecidableEq, Repr

/-- `IsPredicate` from `src/sql/parser/ast/expression.rs`. -/
inductive IsPredicate where
  | True
  | False
  | Null
  deriving DecidableEq, Repr

/-- The expression AST consumed by `ExpressionEvaluator::evaluate`
(variants `Literal`, `Column`, `BinaryOp`, `Is`). -/
inductive Expression where
  | Literal (lit : LiteralValue)
  | Column (name : String)
  | BinaryOp (left : Expression) (op : Operator) (right : Expression)
  | Is (expr : Expression) (predicate : IsPredicate) (is_negated : Bool)
  deriving DecidableEq, Repr

/-- Modelled from the spec: the `Value::from(LiteralValue)` conversion
used by `ExpressionEvaluator::evaluate` on `Expression::Literal` is not
present under `src/`; per spec §4.5/§4.8 each literal evaluates to the
value of the corresponding variant (integers to `Integer`, floats to
`Float`, strings to `Text`, booleans to `Boolean`, `NULL` to `Null`),
which is also pinned by the evaluator's own unit tests. -/
def Value.fromLiteral : LiteralValue → Value
  | .Integer i => .Integer i
  | .Float bits => .Float bits
  | .String s => .Text s
  | .Boolean b => .Boolean b
  | .Null => .Null

/-- `values_add` from `src/sql/evaluator/mod.rs`.  Rust `i64` addition can
overflow; the claims below never exercise overflowing inputs, so integer
arithmetic is carried on `Int`. -/
def values_add (F : FloatOps) : Value → Value → Except String Value
  | .Integer a, .Integer b => .ok (.Integer (a + b))
  | .Float a, .Float b => .ok (.Float (F.add a b))
  | .Integer a, .Float b => .ok (.Float (F.add (F.ofInt a) b))
  | .Float a, .Integer b => .ok (.Float (F.add a (F.ofInt b)))
  | .Null, _ => .ok .Null
  | _, .Null => .ok .Null
  | l, r => .error s!"Cannot add {reprStr l} and {reprStr r}"

/-- `values_subtract` from `src/sql/evaluator/mod.rs`. -/
def values_subtract (F : FloatOps) : Value → Value → Except String Value
  | .Integer a, .Integer b => .ok (.Integer (a - b))
  | .Float a, .Float b => .ok (.Float (F.sub a b))
  | .Integer a, .Float b => .ok (.Float (F.sub (F.ofInt a) b))
  | .Float a, .Integer b => .ok (.Float (F.sub a (F.ofInt b)))
  | .Null, _ => .ok .Null
  | _, .Null => .ok .Null
  | l, r => .error s!"Cannot subtract {reprStr l} and {reprStr r}"

/-- `values_multiply` from `src/sql/evaluator/mod.rs`. -/
def values_multiply (F : FloatOps) : Value → Value → Except String Value
  | .Integer a, .Integer b => .ok (.Integer (a * b))
  | .Float a, .Float b => .ok (.Float (F.mul a b))
  | .Integer a, .Float b => .ok (.Float (F.mul (F.ofInt a) b))
  | .Float a, .Integer b => .ok (.Float (F.mul a (F.ofInt b)))
  | .Null, _ => .ok .Null
  | _, .Null => .ok .Null
  | l, r => .error s!"Cannot multiply {reprStr l} and {reprStr r}"

/-- `values_divide` from `src/sql/evaluator/mod.rs`.  Rust `i64` division
truncates toward zero (`Int.tdiv`). -/
def values_divide (F : FloatOps) : Value → Value → Except String Value
  | .Integer a, .Integer b =>
    if b = 0 then .error "Division by zero" else .ok (.Integer (a.tdiv b))
  | .Float a, .Float b =>
    if F.isZero b then .error "Division by zero" else .ok (.Float (F.div a b))
  | .Integer a, .Float b =>
    if F.isZero b then .error "Division by zero" else .ok (.Float (F.div (F.ofInt a) b))
  | .Float a, .Integer b =>
    if b = 0 then .error "Division by zero" else .ok (.Float (F.div a (F.ofInt b)))
  | .Null, _ => .ok .Null
  | _, .Null => .ok .Null
  | l, r => .error s!"Cannot divide {reprStr l} and {reprStr r}"

/-- `values_equal` from `src/sql/evaluator/mod.rs`: total on values,
`Null` if either side is `Null`, `Boolean(false)` on any type combination
not covered by an explicit arm. -/
def values_equal (F : FloatOps) (left right : Value) : Value :=
  if left = .Null ∨ right = .Null then .Null
  else
    let result : Bool :=
      match left, right with
      | .Integer a, .Integer b => a = b
      | .Float a, .Float b => F.eqEps a b
      | .Integer a, .Float b => F.eqEps (F.ofInt a) b
      | .Float a, .Integer b => F.eqEps a (F.ofInt b)
      | .Text a, .Text b => a = b
      | .Boolean a, .Boolean b => a = b
      | _, _ => false
    .Boolean result

/-- `values_greater_than` from `src/sql/evaluator/mod.rs`: note the
`(Null, _) | (_, Null) => false` arm — a `Null` operand produces
`Ok(Boolean(false))`, not `Null` — and the absence of any string arm. -/
def values_greater_than (F : FloatOps) : Value → Value → Except String Value
  | .Integer a, .Integer b => .ok (.Boolean (a > b))
  | .Float a, .Float b => .ok (.Boolean (F.lt b a))
  | .Integer a, .Float b => .ok (.Boolean (F.lt b (F.ofInt a)))
  | .Float a, .Integer b => .ok (.Boolean (F.lt (F.ofInt b) a))
  | .Null, _ => .ok (.Boolean false)
  | _, .Null => .ok (.Boolean false)
  | l, r => .error s!"Invalid comparison between {reprStr l} and {reprStr r}"

/-- `values_less_than` from `src/sql/evaluator/mod.rs`. -/
def values_less_than (F : FloatOps) : Value → Value → Except String Value
  | .Integer a, .Integer b => .ok (.Boolean (a < b))
  | .Float a, .Float b => .ok (.Boolean (F.lt a b))
  | .Integer a, .Float b => .ok (.Boolean (F.lt (F.ofInt a) b))
  | .Float a, .Integer b => .ok (.Boolean (F.lt a (F.ofInt b)))
  | .Null, _ => .ok (.Boolean false)
  | _, .Null => .ok (.Boolean false)
  | l, r => .error s!"Invalid comparison between {reprStr l} and {reprStr r}"

namespace ExpressionEvaluator

/-- `ExpressionEvaluator::is_truthy`: only `Boolean(true)` is truthy. -/
def is_truthy : Value → Bool
  | .Boolean b => b
  | _ => false

/-- The derived `PartialEq` on `Value` (`value == match_against` in the
`Is` arm): structural equality except that `Float` payloads compare with
the IEEE `==` primitive, abstracted by `F.rustEq`. -/
def rust_value_eq (F : FloatOps) : Value → Value → Bool
  | .Integer a, .Integer b => a = b
  | .Text a, .Text b => a = b
  | .Boolean a, .Boolean b => a = b
  | .Float a, .Float b => F.rustEq a b
  | .Null, .Null => true
  | _, _ => false

/-- `ExpressionEvaluator::evaluate` from `src/sql/evaluator/expression.rs`.
`And`/`Or` are dispatched to the short-circuiting helper logic
(`evaluate_and` / `evaluate_or`, inlined here so the recursion is
structural; the helpers are restated verbatim below and agree with the
corresponding arms definitionally) before the operands are evaluated. -/
def evaluate (F : FloatOps) (expression : Expression) (row : Row) (schema : Schema) :
    Except String Value :=
  match expression with
  | .Literal lit => .ok (Value.fromLiteral lit)
  | .Column name =>
    match schema.get_column_index name with
    | none => .error s!"Column {name} does not exist"
    | some idx => .ok ((row.get_value idx).getD .Null)
  | .BinaryOp left op right =>
    match op with
    | .And =>
      match evaluate F left row schema with
      | .error e => .error e
      | .ok left_val =>
        if !is_truthy left_val then .ok (.Boolean false)
        else
          match evaluate F right row schema with
          | .error e => .error e
          | .ok right_val => .ok (.Boolean (is_truthy right_val))
    | .Or =>
      match evaluate F left row schema with
      | .error e => .error e
      | .ok left_val =>
        if is_truthy left_val then .ok (.Boolean true)
        else
          match evaluate F right row schema with
          | .error e => .error e
          | .ok right_val => .ok (.Boolean (is_truthy right_val))
    | _ =>
      match evaluate F left row schema with
      | .error e => .error e
      | .ok left_val =>
        match evaluate F right row schema with
        | .error e => .error e
        | .ok right_val =>
          match op with
          | .Add => values_add F left_val right_val
          | .Subtract => values_subtract F left_val right_val
          | .Multiply => values_multiply F left_val right_val
          | .Divide => values_divide F left_val right_val
          | .Equal => .ok (values_equal F left_val right_val)
          | .NotEqual =>
            match values_equal F left_val right_val with
            | .Boolean b => .ok (.Boolean !b)
            | _ => .ok .Null
          | .GreaterThan => values_greater_than F left_val right_val
          | .LessThan => values_less_than F left_val right_val
          | .GreaterThanEqual =>
            match values_less_than F left_val right_val with
            | .error e => .error e
            | .ok (.Boolean b) => .ok (.Boolean !b)
            | .ok _ => .ok .Null
          | .LessThanEqual =>
            match values_greater_than F left_val right_val with
            | .error e => .error e
            | .ok (.Boolean b) => .ok (.Boolean !b)
            | .ok _ => .ok .Null
          | _ => .error "Operator not implemented in ExpressionEvaluator"
  | .Is expr predicate is_negated =>
    match evaluate F expr row schema with
    | .error e => .error e
    | .ok value =>
      let match_against : Value :=
        match predicate with
        | .True => .Boolean true
        | .False => .Boolean false
        | .Null => .Null
      .ok (.Boolean (if !is_negated then rust_value_eq F value match_against
                     else !(rust_value_eq F value match_against)))

/-- `ExpressionEvaluator::evaluate_and`: if the left side is not truthy
return `Boolean(false)` without evaluating the right side. -/
def evaluate_and (F : FloatOps) (left right : Expression) (row : Row) (schema : Schema) :
    Except String Value :=
  match evaluate F left row schema with
  | .error e => .error e
  | .ok left_val =>
    if !is_truthy left_val then .ok (.Boolean false)
    else
      match evaluate F right row schema with
      | .error e => .error e
      | .ok right_val => .ok (.Boolean (is_truthy right_val))

/-- `ExpressionEvaluator::evaluate_or`: if the left side is truthy return
`Boolean(true)` without evaluating the right side. -/
def evaluate_or (F : FloatOps) (left right : Expression) (row : Row) (schema : Schema) :
    Except String Value :=
  match evaluate F left row schema with
  | .error e => .error e
  | .ok left_val =>
    if is_truthy left_val then .ok (.Boolean true)
    else
      match evaluate F right row schema with
      | .error e => .error e
      | .ok right_val => .ok (.Boolean (is_truthy right_val))

end ExpressionEvaluator

/-- `PredicateEvaluator::evaluate` from `src/sql/evaluator/predicate.rs`:
evaluate to a `Value`, then `Boolean b → b`, `Null → false`, anything else
is the "WHERE clause must evaluate to a boolean" error. -/
def PredicateEvaluator.evaluate (F : FloatOps) (expression : Expression) (row : Row)
    (schema : Schema) : Except String Bool :=
  match ExpressionEvaluator.evaluate F expression row schema with
  | .error e => .error e
  | .ok (.Boolean b) => .ok b
  | .ok .Null => .ok false
  | .ok v => .error s!"WHERE clause must evaluate to a boolean, got {reprStr v}"

/-! ## Physical-plan execution (`src/db/database.rs`)

The physical plan shape is the one consumed by
`Database::execute_physical_plan` (`SeqScan { table_name }`,
`Filter { predicate, input }`, `Projection { columns_indices, input }`).
The database state visible to execution is abstracted as a map from table
name to the table's schema and the rows its heap scan yields. -/

/-- The physical plan matched by `Database::execute_physical_plan`. -/
inductive PhysicalPlan where
  | seqScan (table_name : String)
  | filter (predicate : Expression) (input : PhysicalPlan)
  | projection (columns_indices : List Nat) (input : PhysicalPlan)
  deriving DecidableEq, Repr

/-- `PhysicalPlan::extract_table_name`. -/
def PhysicalPlan.extract_table_name : PhysicalPlan → Except String String
  | .seqScan table_name => .ok table_name
  | .filter _ input => input.extract_table_name
  | .projection _ input => input.extract_table_name

/-- The database state seen by `execute_physical_plan`: per table, its
schema and the rows a full heap scan (`get_rows`) returns. -/
structure DatabaseState where
  tables : String → Option (Schema × List Row)

/-- `Database::execute_physical_plan`.  The `Filter` arm reproduces
`.filter(|row| evaluator.evaluate(&predicate, row, schema).unwrap_or(false))`:
a row on which predicate evaluation returns an error is silently dropped
and no error is surfaced.  The `Projection` arm's `row.values[idx]` panic
on an out-of-range index is modelled as an error value. -/
def execute_physical_plan (F : FloatOps) (db : DatabaseState) :
    PhysicalPlan → Except String (List Row)
  | .seqScan table_name =>
    match db.tables table_name with
    | some (_, rows) => .ok rows
    | none => .error s!"Table {table_name} not found"
  | .filter predicate input =>
    match input.extract_table_name with
    | .error e => .error e
    | .ok table_name =>
      match execute_physical_plan F db input with
      | .error e => .error e
      | .ok input_rows =>
        match db.tables table_name with
        | none => .error s!"Table {table_name} not found"
        | some (schema, _) =>
          .ok (input_rows.filter fun row =>
            match PredicateEvaluator.evaluate F predicate row schema with
            | .ok b => b
            | .error _ => false)
  | .projection columns_indices input =>
    match execute_physical_plan F db input with
    | .error e => .error e
    | .ok input_rows =>
      match input_rows.mapM (fun row =>
          (columns_indices.mapM fun idx => row.values.get? idx).map Row.new) with
      | some projected_rows => .ok projected_rows
      | none => .error "index out of bounds"

/-! ## Row codec
(`src/core/types.rs`, `src/db/null_bitmap.rs`, `src/db/table/schema.rs`,
validation from `src/db/table/table_def.rs`)

The codec's value type (`core::types::Value`) is embedded separately from
the evaluator's: `f64` values are carried as their 64-bit patterns (which
is exactly what `to_le_bytes`/`from_le_bytes` serialize) and Rust
`String`s as their UTF-8 byte lists. -/

namespace Codec

/-- `DataType` from `src/core/types.rs`. -/
inductive DataType where
  | int64
  | text
  | varChar (max : Nat)
  | bool
  | float64
  | timestamp
  deriving DecidableEq, Repr

/-- `Value` from `src/core/types.rs`.  `float64` holds the IEEE-754 bit
pattern (`< 2^64`); `text` holds the string's UTF-8 bytes. -/
inductive Value where
  | int64 (n : Int)
  | float64 (bits : Nat)
  | text (bytes : List Nat)
  | bool (b : Bool)
  | null
  deriving DecidableEq, Repr

/-- IEEE-754 NaN test on a 64-bit pattern: exponent all ones and a
non-zero mantissa. -/
def f64_is_nan (bits : Nat) : Bool :=
  (bits / 2 ^ 52) % 2 ^ 11 = 0x7FF ∧ bits % 2 ^ 52 ≠ 0

/-- IEEE-754 zero test (`+0.0` or `-0.0`): zero magnitude. -/
def f64_is_zero (bits : Nat) : Bool :=
  bits % 2 ^ 63 = 0

/-- The Rust `f64` `PartialEq` (`==`): `false` whenever either side is
NaN, `true` for `+0.0 == -0.0`, otherwise bit equality. -/
def rust_f64_eq (a b : Nat) : Bool :=
  if f64_is_nan a || f64_is_nan b then false
  else if f64_is_zero a && f64_is_zero b then true
  else a = b

/-- The derived `PartialEq` on `core::types::Value`. -/
def Value.rust_eq : Value → Value → Bool
  | .int64 a, .int64 b => a = b
  | .float64 a, .float64 b => rust_f64_eq a b
  | .text a, .text b => a = b
  | .bool a, .bool b => a = b
  | .null, .null => true
  | _, _ => false

/-- The derived `PartialEq` on `Vec<Value>` (rows compare elementwise;
the spec's `decode(encode(row)) == row` is this comparison). -/
def rust_values_eq : List Value → List Value → Bool
  | [], [] => true
  | a :: as_, b :: bs => Value.rust_eq a b && rust_values_eq as_ bs
  | _, _ => false

/-- `Row` from `src/db/table/row.rs`. -/
structure Row where
  values : List Value
  deriving DecidableEq, Repr

/-- `ColumnDef` from `src/db/table/column_def.rs`. -/
structure ColumnDef where
  name : String
  data_type : DataType
  nullable : Bool
  deriving DecidableEq, Repr

/-- `Schema` from `src/db/table/schema.rs`. -/
structure Schema where
  columns : List ColumnDef
  deriving DecidableEq, Repr

/-- `NullBitmap::new` size: `num_columns.div_ceil(8)` bytes. -/
def bitmapSize (num_columns : Nat) : Nat :=
  (num_columns + 7) / 8

/-- `NullBitmap::set_null` (`bytes[byte_idx] |= 1 << bit_idx`); `none`
models the index-out-of-range panic. -/
def set_null (bytes : List Nat) (index : Nat) : Option (List Nat) :=
  let byte_idx := index / 8
  let bit_idx := index % 8
  if byte_idx < bytes.length then
    some (bytes.set byte_idx (bytes.getD byte_idx 0 ||| (1 <<< bit_idx)))
  else none

/-- `NullBitmap::is_null` (`(bytes[byte_idx] & (1 << bit_idx)) != 0`,
with `false` for a byte index past the bitmap). -/
def is_null (bytes : List Nat) (index : Nat) : Bool :=
  let byte_idx := index / 8
  let bit_idx := index % 8
  if byte_idx ≥ bytes.length then false
  else (bytes.getD byte_idx 0).testBit bit_idx

/-- The `for (i, value) in row.values.iter().enumerate()` loop of
`Schema::encode_row` that populates the null bitmap. -/
def setNulls (bytes : List Nat) : List Value → Nat → Option (List Nat)
  | [], _ => some bytes
  | v :: vs, i =>
    match v with
    | .null =>
      match set_null bytes i with
      | some bytes' => setNulls bytes' vs (i + 1)
      | none => none
    | _ => setNulls bytes vs (i + 1)

/-- Standard UTF-8 validation (RFC 3629), the success condition of
`std::str::from_utf8`: `from_utf8(b)` is `Ok` of a `&str` with exactly
the bytes `b` iff `validUtf8 b`. -/
def validUtf8 : List Nat → Bool
  | [] => true
  | b :: rest =>
    if b < 0x80 then validUtf8 rest
    else if 0xC2 ≤ b ∧ b ≤ 0xDF then
      match rest with
      | c1 :: r => (0x80 ≤ c1 ∧ c1 ≤ 0xBF) && validUtf8 r
      | _ => false
    else if 0xE0 ≤ b ∧ b ≤ 0xEF then
      match rest with
      | c1 :: c2 :: r =>
        (if b = 0xE0 then (0xA0 ≤ c1 ∧ c1 ≤ 0xBF : Bool)
         else if b = 0xED then (0x80 ≤ c1 ∧ c1 ≤ 0x9F : Bool)
         else (0x80 ≤ c1 ∧ c1 ≤ 0xBF : Bool)) &&
        (0x80 ≤ c2 ∧ c2 ≤ 0xBF) && validUtf8 r
      | _ => false
    else if 0xF0 ≤ b ∧ b ≤ 0xF4 then
      match rest with
      | c1 :: c2 :: c3 :: r =>
        (if b = 0xF0 then (0x90 ≤ c1 ∧ c1 ≤ 0xBF : Bool)
         else if b = 0xF4 then (0x80 ≤ c1 ∧ c1 ≤ 0x8F : Bool)
         else (0x80 ≤ c1 ∧ c1 ≤ 0xBF : Bool)) &&
        (0x80 ≤ c2 ∧ c2 ≤ 0xBF) && (0x80 ≤ c3 ∧ c3 ≤ 0xBF) && validUtf8 r
      | _ => false
    else false

/-- One non-null column payload of `Schema::encode_row`; `none` models
the `assert!` on a `VarChar` overflow and the `panic!` on a column-type /
value mismatch.  Text lengths are prefixed with `len as u32`. -/
def encodeValue : DataType → Value → Option (List Nat)
  | .int64, .int64 number => some (i64ToLe number)
  | .float64, .float64 bits => some (u64ToLe bits)
  | .text, .text bytes => some (u32ToLe bytes.length ++ bytes)
  | .varChar max_length, .text bytes =>
    if bytes.length ≤ max_length then some (u32ToLe bytes.length ++ bytes) else none
  | .bool, .bool b => some [if b then 1 else 0]
  | _, _ => none

/-- The payload loop of `Schema::encode_row` over
`row.values.iter().zip(self.columns.iter())`, skipping nulls. -/
def encodePayloads : List (Value × ColumnDef) → Option (List Nat)
  | [] => some []
  | (value, column) :: rest =>
    match value with
    | .null => encodePayloads rest
    | _ =>
      match encodeValue column.data_type value with
      | none => none
      | some payload =>
        match encodePayloads rest with
        | none => none
        | some tail => some (payload ++ tail)

/-- `Schema::encode_row`: null bitmap first, then the non-null payloads
in column order. -/
def Schema.encode_row (s : Schema) (row : Row) : Option (List Nat) :=
  match setNulls (List.replicate (bitmapSize s.columns.length) 0) row.values 0 with
  | none => none
  | some bitmap =>
    match encodePayloads (row.values.zip s.columns) with
    | none => none
    | some payloads => some (bitmap ++ payloads)

/-- One column decode step of `Schema::decode_row` at byte `offset`;
returns the value and the advanced offset.  `none` models the
truncation / invalid-UTF-8 errors and the `todo!()` on `Timestamp`. -/
def decodeValue (dt : DataType) (bytes : List Nat) (offset : Nat) : Option (Value × Nat) :=
  match dt with
  | .int64 =>
    if offset + 8 > bytes.length then none
    else some (.int64 (i64FromLe (listSlice bytes offset 8)), offset + 8)
  | .float64 =>
    if offset + 8 > bytes.length then none
    else some (.float64 (u64FromLe (listSlice bytes offset 8)), offset + 8)
  | .bool =>
    if offset + 1 > bytes.length then none
    else some (.bool (bytes.getD offset 0 ≠ 0), offset + 1)
  | .text | .varChar _ =>
    if offset + 4 > bytes.length then none
    else
      let length := u32FromLe (bytes.getD offset 0) (bytes.getD (offset + 1) 0)
        (bytes.getD (offset + 2) 0) (bytes.getD (offset + 3) 0)
      let offset := offset + 4
      if offset + length > bytes.length then none
      else
        let text_bytes := listSlice bytes offset length
        if validUtf8 text_bytes then some (.text text_bytes, offset + length)
        else none
  | .timestamp => none

/-- The per-column loop of `Schema::decode_row`: `idx` is the column
index into the bitmap, `offset` the running byte offset. -/
def decodeColumns (bitmap bytes : List Nat) :
    List ColumnDef → Nat → Nat → Option (List Value)
  | [], _, _ => some []
  | column :: rest, idx, offset =>
    if is_null bitmap idx then
      match decodeColumns bitmap bytes rest (idx + 1) offset with
      | some values => some (.null :: values)
      | none => none
    else
      match decodeValue column.data_type bytes offset with
      | none => none
      | some (value, offset') =>
        match decodeColumns bitmap bytes rest (idx + 1) offset' with
        | some values => some (value :: values)
        | none => none

/-- `Schema::decode_row`. -/
def Schema.decode_row (s : Schema) (bytes : List Nat) : Option Row :=
  let expected := bitmapSize s.columns.length
  if bytes.length < expected then none
  else
    match decodeColumns (bytes.take expected) bytes s.columns 0 expected with
    | some values => some ⟨values⟩
    | none => none

/-- `Value::is_compatible_with` from `src/core/types.rs` (as a `Bool`). -/
def Value.is_compatible_with : Value → DataType → Bool
  | .text s, .varChar max_len => s.length ≤ max_len
  | .int64 _, .int64 => true
  | .bool _, .bool => true
  | .float64 _, .float64 => true
  | .null, _ => true
  | .text _, .text => true
  | _, _ => false

/-- The insert-time validation from `TableDef::insert_row`
(`src/db/table/table_def.rs`): value count equals column count; `Null`
only in nullable columns; every other value `is_compatible_with` its
column's type. -/
def validate_row (s : Schema) (row : Row) : Bool :=
  row.values.length = s.columns.length &&
  (row.values.zip s.columns).all fun (value, column) =>
    match value with
    | .null => column.nullable
    | v => v.is_compatible_with column.data_type

/-- Machine-representability of a value, invariants the Rust types carry
intrinsically: `i64` range, 64-bit float patterns, and `String` contents
(valid UTF-8, byte length below the `u32` length prefix's range). -/
def Value.wf : Value → Prop
  | .int64 n => -(2 ^ 63) ≤ n ∧ n < 2 ^ 63
  | .float64 bits => bits < 2 ^ 64
  | .text bytes => validUtf8 bytes = true ∧ bytes.length < 2 ^ 32
  | .bool _ => True
  | .null => True

instance : DecidablePred Value.wf := fun v => by
  cases v <;> simp only [Value.wf] <;> infer_instance

/-- No value in the list is a NaN float (Rust `==` is reflexive away from
NaN). -/
def noNaN (values : List Value) : Prop :=
  ∀ v ∈ values, ∀ bits, v = Value.float64 bits → f64_is_nan bits = false

end Codec

/-! ## Analyzer binary-operator typing (`src/sql/analyzer.rs`) -/

/-- `ColumnType` from `src/sql/analyzer.rs`. -/
inductive ColumnType where
  | int64
  | float64
  | text
  | bool
  | null
  deriving DecidableEq, Repr

namespace Analyzer

/-- `Analyzer::can_coerce` from `src/sql/analyzer.rs`. -/
def can_coerce (from_ to_ : ColumnType) : Bool :=
  if from_ = to_ then true
  else
    match from_, to_ with
    | .int64, .float64 => true
    | .text, _ => true
    | _, .text => true
    | _, _ => false

/-- `Analyzer::get_common_numeric_type`: note the `left == right` arm
returns `left` for ANY type (including `Text` and `Bool`), and the
wildcard arms accept one non-numeric operand as long as the other side is
`Float64` or `Int64`. -/
def get_common_numeric_type (left right : ColumnType) : Except String ColumnType :=
  if left = right then .ok left
  else
    match left, right with
    | _, .float64 => .ok .float64
    | .float64, _ => .ok .float64
    | _, .int64 => .ok .int64
    | .int64, _ => .ok .int64
    | l, r => .error s!"Cannot perform arithmetic between {reprStr l} and {reprStr r}"

/-- `Operator` usable by `resolve_binary_op` is the evaluator's
`Operator`; `Analyzer::resolve_binary_op` from `src/sql/analyzer.rs`. -/
def resolve_binary_op (left : ColumnType) (op : Operator) (right : ColumnType) :
    Except String ColumnType :=
  match op with
  | .Equal | .GreaterThan | .LessThan | .GreaterThanEqual | .LessThanEqual | .NotEqual =>
    if can_coerce left right then .ok .bool
    else .error s!"Type mismatch between {reprStr left} and {reprStr right}"
  | .Add | .Subtract | .Multiply | .Divide =>
    get_common_numeric_type left right
  | .And | .Or =>
    if left = .bool ∧ right = .bool then .ok .bool
    else .error s!"Type mismatch between {reprStr left} and {reprStr right}"

end Analyzer

/-! ## Concrete fixtures used by witnesses and counterexamples -/

/-- A one-column `users(age INT NULL)` schema for evaluator tests
(mirrors the spec's `users` scenarios). -/
def usersSchema : Schema := ⟨[⟨"age", DataType.Integer, true⟩]⟩

/-- A `users` row with `age = 0`. -/
def rowAge0 : Row := Row.new [.Integer 0]

/-- A `users` row with `age = 30`. -/
def rowAge30 : Row := Row.new [.Integer 30]

/-- A `users` row with `age = NULL`. -/
def rowAgeNull : Row := Row.new [.Null]

/-- A database state with a single `users` table holding the two rows
`age = 0` and `age = 30`. -/
def usersDb : DatabaseState :=
  ⟨fun name => if name = "users" then some (usersSchema, [rowAge0, rowAge30]) else none⟩

/-- The predicate `age > 0 OR age / 0 = 0`: its evaluation divides by
zero on any row whose `age` is a non-positive integer. -/
def divPredicate : Expression :=
  .BinaryOp
    (.BinaryOp (.Column "age") .GreaterThan (.Literal (.Integer 0)))
    .Or
    (.BinaryOp (.BinaryOp (.Column "age") .Divide (.Literal (.Integer 0)))
      .Equal (.Literal (.Integer 0)))

/-- A buffer pool caching exactly one fresh `Table` page at id `0`. -/
def poolFresh : Nat → Option Page :=
  fun id => if id = 0 then some (Page.new 0 .table) else none

/-- A table file from which no page can be loaded. -/
def fileEmpty : Nat → Option Page := fun _ => none

/-- A one-column `Float64 NOT NULL` schema for the codec. -/
def floatSchema : Codec.Schema := ⟨[⟨"x", Codec.DataType.float64, false⟩]⟩

/-- The quiet-NaN bit pattern `0x7FF8000000000000`. -/
def nanBits : Nat := 0x7FF8000000000000

/-- A single-column row holding a NaN float. -/
def rowNaN : Codec.Row := ⟨[.float64 nanBits]⟩

/-- `true` iff the value is the `Null` variant (helper for stating the
null-bitmap property). -/
def Codec.Value.isNull : Codec.Value → Bool
  | .null => true
  | _ => false

/-- Whether some value at absolute column index `k` in the suffix `vs`
(whose first element has index `i`) is `Null` — the bits `setNulls`
is supposed to set. -/
def Codec.nullAt : List Codec.Value → Nat → Nat → Bool
  | [], _, _ => false
  | v :: vs, i, k => (k = i && v.isNull) || Codec.nullAt vs (i + 1) k

/-- The page obtained by `Page::new(0, Table)` followed by
`add_data(&[7])`: one 1-byte payload at the top of the heap, one live
item pointer `(offset 8191, length 1, flags 0)`. -/
def pAdded : Page :=
  { header := { page_id := 0, page_type := .table, lower := 29, upper := 8191,
                item_count := 1, special := 8192 }
    data := [255, 31, 1, 0, 0] ++ (List.replicate 8162 0 ++ [7]) }

/-- `pAdded` after `delete_item(0)`: only the flags byte of the item
pointer changed (tombstone); header and payload untouched. -/
def pDeleted : Page :=
  { pAdded with data := [255, 31, 1, 0, 1] ++ (List.replicate 8162 0 ++ [7]) }

/-- A three-column codec schema `(id INT64 NOT NULL, name VARCHAR(255)
NULL, ok BOOL NULL)` for round-trip witnesses. -/
def wSchema : Codec.Schema :=
  ⟨[⟨"id", .int64, false⟩, ⟨"name", .varChar 255, true⟩, ⟨"ok", .bool, true⟩]⟩

/-- The row `(-42, "Bob", NULL)` (text as UTF-8 bytes). -/
def wRow : Codec.Row := ⟨[.int64 (-42), .text [66, 111, 98], .null]⟩

/-! ## Shared lemmas about the expression evaluator -/

namespace ExpressionEvaluator

theorem eval_equal (F : FloatOps) {l r : Expression} {row : Row} {schema : Schema} {lv rv : Value}
    (hl : evaluate F l row schema = .ok lv) (hr : evaluate F r row schema = .ok rv) :
    evaluate F (.BinaryOp l .Equal r) row schema = .ok (values_equal F lv rv) := by
  simp [evaluate, hl, hr]

theorem eval_not_equal (F : FloatOps) {l r : Expression} {row : Row} {schema : Schema}
    {lv rv : Value} (hl : evaluate F l row schema = .ok lv)
    (hr : evaluate F r row schema = .ok rv) :
    evaluate F (.BinaryOp l .NotEqual r) row schema =
      (match values_equal F lv rv with
       | .Boolean b => .ok (.Boolean !b)
       | _ => .ok .Null) := by
  simp [evaluate, hl, hr]

theorem eval_gt (F : FloatOps) {l r : Expression} {row : Row} {schema : Schema} {lv rv : Value}
    (hl : evaluate F l row schema = .ok lv) (hr : evaluate F r row schema = .ok rv) :
    evaluate F (.BinaryOp l .GreaterThan r) row schema = values_greater_than F lv rv := by
  simp [evaluate, hl, hr]

theorem eval_lt (F : FloatOps) {l r : Expression} {row : Row} {schema : Schema} {lv rv : Value}
    (hl : evaluate F l row schema = .ok lv) (hr : evaluate F r row schema = .ok rv) :
    evaluate F (.BinaryOp l .LessThan r) row schema = values_less_than F lv rv := by
  simp [evaluate, hl, hr]

theorem eval_gte (F : FloatOps) {l r : Expression} {row : Row} {schema : Schema} {lv rv : Value}
    (hl : evaluate F l row schema = .ok lv) (hr : evaluate F r row schema = .ok rv) :
    evaluate F (.BinaryOp l .GreaterThanEqual r) row schema =
      (match values_less_than F lv rv with
       | .error e => .error e
       | .ok (.Boolean b) => .ok (.Boolean !b)
       | .ok _ => .ok .Null) := by
  simp [evaluate, hl, hr]

theorem eval_lte (F : FloatOps) {l r : Expression} {row : Row} {schema : Schema} {lv rv : Value}
    (hl : evaluate F l row schema = .ok lv) (hr : evaluate F r row schema = .ok rv) :
    evaluate F (.BinaryOp l .LessThanEqual r) row schema =
      (match values_greater_than F lv rv with
       | .error e => .error e
       | .ok (.Boolean b) => .ok (.Boolean !b)
       | .ok _ => .ok .Null) := by
  simp [evaluate, hl, hr]

theorem eval_and_eq (F : FloatOps) (l r : Expression) (row : Row) (schema : Schema) :
    evaluate F (.BinaryOp l .And r) row schema = evaluate_and F l r row schema := rfl

theorem eval_or_eq (F : FloatOps) (l r : Expression) (row : Row) (schema : Schema) :
    evaluate F (.BinaryOp l .Or r) row schema = evaluate_or F l r row schema := rfl

end ExpressionEvaluator

/-! ## Claim theorems: evaluator and execution (C1, C2, C8, C10), analyzer (C7) -/

/-- C7 counterexample: `Text + Text` type-checks (result `Text`) instead
of being rejected with a type error. -/
theorem C7_counterexample :
    Analyzer.resolve_binary_op ColumnType.text Operator.Add ColumnType.text
      = Except.ok ColumnType.text := rfl

/-- C7 (amended): typing of the arithmetic operators. -/
theorem C7_theorem (left right : ColumnType) (op : Operator)
    (hop : op = .Add ∨ op = .Subtract ∨ op = .Multiply ∨ op = .Divide) :
    (left = right → Analyzer.resolve_binary_op left op right = .ok left) ∧
    ((left = .float64 ∨ right = .float64) → left ≠ right →
      Analyzer.resolve_binary_op left op right = .ok .float64) ∧
    (left ≠ .float64 → right ≠ .float64 → (left = .int64 ∨ right = .int64) → left ≠ right →
      Analyzer.resolve_binary_op left op right = .ok .int64) ∧
    (left ≠ .float64 → right ≠ .float64 → left ≠ .int64 → right ≠ .int64 → left ≠ right →
      ∃ msg, Analyzer.resolve_binary_op left op right = .error msg) := by
  have hres : Analyzer.resolve_binary_op left op right
      = Analyzer.get_common_numeric_type left right := by
    rcases hop with h | h | h | h <;> subst h <;> rfl
  refine ⟨?_, ?_, ?_, ?_⟩ <;> rw [hres] <;>
    cases left <;> cases right <;>
    simp [Analyzer.get_common_numeric_type]

theorem C7_witness :
    Analyzer.resolve_binary_op ColumnType.int64 Operator.Add ColumnType.float64
      = Except.ok ColumnType.float64 :=
  (C7_theorem .int64 .float64 .Add (Or.inl rfl)).2.1 (Or.inr rfl) (by simp)

open ExpressionEvaluator in
/-- C10: `=` is total on non-Null values of incomparable (mismatched,
non-numeric-coercible) types, returning `Boolean(false)` (`!=` returning
`Boolean(true)`), on exactly the type combinations where ordering errors. -/
theorem C10_theorem (F : FloatOps) (l r : Value) (hl : l ≠ .Null) (hr : r ≠ .Null)
    (hdiff : l.data_type ≠ r.data_type)
    (hnum : ¬((l.data_type = some .Integer ∨ l.data_type = some .Float) ∧
              (r.data_type = some .Integer ∨ r.data_type = some .Float))) :
    values_equal F l r = .Boolean false ∧
    (∃ msg, values_greater_than F l r = .error msg) ∧
    (∃ msg, values_less_than F l r = .error msg) ∧
    ∀ (le re : Expression) (row : Row) (schema : Schema),
      evaluate F le row schema = .ok l → evaluate F re row schema = .ok r →
      evaluate F (.BinaryOp le .Equal re) row schema = .ok (.Boolean false) ∧
      evaluate F (.BinaryOp le .NotEqual re) row schema = .ok (.Boolean true) := by
  have hval : values_equal F l r = .Boolean false ∧
      (∃ msg, values_greater_than F l r = .error msg) ∧
      (∃ msg, values_less_than F l r = .error msg) := by
    cases l <;> cases r <;>
      simp_all [values_equal, values_greater_than, values_less_than, Value.data_type]
  refine ⟨hval.1, hval.2.1, hval.2.2, ?_⟩
  intro le re row schema h1 h2
  constructor
  · rw [eval_equal F h1 h2, hval.1]
  · rw [eval_not_equal F h1 h2, hval.1]
    rfl

theorem C10_witness :
    values_equal trivFloatOps (.Text "hello") (.Integer 5) = .Boolean false ∧
    ExpressionEvaluator.evaluate trivFloatOps
      (.BinaryOp (.Literal (.String "hello")) .NotEqual (.Literal (.Integer 5)))
      (Row.new []) ⟨[]⟩ = .ok (.Boolean true) :=
  ⟨(C10_theorem trivFloatOps (.Text "hello") (.Integer 5) (by simp) (by simp)
      (by simp [Value.data_type]) (by simp [Value.data_type])).1,
   ((C10_theorem trivFloatOps (.Text "hello") (.Integer 5) (by simp) (by simp)
      (by simp [Value.data_type]) (by simp [Value.data_type])).2.2.2 (.Literal (.String "hello")) (.Literal (.Integer 5))
      (Row.new []) ⟨[]⟩ rfl rfl).2⟩

/-- C2 counterexample: with `age = NULL`, `age > 25` evaluates to
`Boolean(false)` — not `Null` as claimed — and `age >= 25` evaluates to
`Boolean(true)`, so the row is KEPT by a WHERE on `age >= 25`. -/
theorem C2_counterexample :
    ExpressionEvaluator.evaluate trivFloatOps
      (.BinaryOp (.Column "age") .GreaterThan (.Literal (.Integer 25)))
      rowAgeNull usersSchema = .ok (.Boolean false) ∧
    ExpressionEvaluator.evaluate trivFloatOps
      (.BinaryOp (.Column "age") .GreaterThanEqual (.Literal (.Integer 25)))
      rowAgeNull usersSchema = .ok (.Boolean true) ∧
    (Except.ok (Value.Boolean false) : Except String Value) ≠ .ok .Null := by
  refine ⟨rfl, rfl, by simp⟩

open ExpressionEvaluator in
/-- C2 (amended): orderings with a `Null` operand and numeric/text pairs. -/
theorem C2_theorem (F : FloatOps) (l r : Expression) (row : Row) (schema : Schema)
    (lv rv : Value) (hl : evaluate F l row schema = .ok lv)
    (hr : evaluate F r row schema = .ok rv) :
    (lv = .Null ∨ rv = .Null →
      evaluate F (.BinaryOp l .GreaterThan r) row schema = .ok (.Boolean false) ∧
      evaluate F (.BinaryOp l .LessThan r) row schema = .ok (.Boolean false) ∧
      evaluate F (.BinaryOp l .GreaterThanEqual r) row schema = .ok (.Boolean true) ∧
      evaluate F (.BinaryOp l .LessThanEqual r) row schema = .ok (.Boolean true)) ∧
    (∀ a b : Int, lv = .Integer a → rv = .Integer b →
      evaluate F (.BinaryOp l .GreaterThan r) row schema = .ok (.Boolean (decide (b < a))) ∧
      evaluate F (.BinaryOp l .LessThan r) row schema = .ok (.Boolean (decide (a < b)))) ∧
    (∀ fa fb : Nat, lv = .Float fa → rv = .Float fb →
      evaluate F (.BinaryOp l .GreaterThan r) row schema = .ok (.Boolean (F.lt fb fa))) ∧
    (∀ sa sb : String, lv = .Text sa → rv = .Text sb →
      ∃ msg, evaluate F (.BinaryOp l .GreaterThan r) row schema = .error msg) ∧
    (∀ (sa : String) (b : Int), lv = .Text sa → rv = .Integer b →
      ∃ msg, evaluate F (.BinaryOp l .GreaterThan r) row schema = .error msg) := by
  refine ⟨?_, ?_, ?_, ?_, ?_⟩
  · rintro (h | h) <;> subst h <;>
      refine ⟨?_, ?_, ?_, ?_⟩ <;>
      simp only [eval_gt F hl hr, eval_lt F hl hr, eval_gte F hl hr, eval_lte F hl hr] <;>
      first
        | (cases rv <;> rfl)
        | (cases lv <;> rfl)
  · rintro a b h1 h2; subst h1; subst h2
    exact ⟨by rw [eval_gt F hl hr]; rfl, by rw [eval_lt F hl hr]; rfl⟩
  · rintro fa fb h1 h2; subst h1; subst h2
    rw [eval_gt F hl hr]; rfl
  · rintro sa sb h1 h2; subst h1; subst h2
    exact ⟨_, by rw [eval_gt F hl hr]; rfl⟩
  · rintro sa b h1 h2; subst h1; subst h2
    exact ⟨_, by rw [eval_gt F hl hr]; rfl⟩

theorem C2_witness :
    ExpressionEvaluator.evaluate trivFloatOps
      (.BinaryOp (.Literal .Null) .GreaterThanEqual (.Literal (.Integer 25)))
      (Row.new []) ⟨[]⟩ = .ok (.Boolean true) :=
  ((C2_theorem trivFloatOps (.Literal .Null) (.Literal (.Integer 25)) (Row.new []) ⟨[]⟩
      .Null (.Integer 25) rfl rfl).1 (Or.inl rfl)).2.2.1

open ExpressionEvaluator in
/-- C8: `AND`/`OR` short-circuit. -/
theorem C8_theorem (F : FloatOps) (l r : Expression) (row : Row) (schema : Schema)
    (lv : Value) (hl : evaluate F l row schema = .ok lv) :
    (is_truthy lv = false →
      evaluate F (.BinaryOp l .And r) row schema = .ok (.Boolean false) ∧
      evaluate F (.BinaryOp l .Or r) row schema =
        (match evaluate F r row schema with
         | .ok rv => .ok (.Boolean (is_truthy rv))
         | .error e => .error e)) ∧
    (is_truthy lv = true →
      evaluate F (.BinaryOp l .Or r) row schema = .ok (.Boolean true) ∧
      evaluate F (.BinaryOp l .And r) row schema =
        (match evaluate F r row schema with
         | .ok rv => .ok (.Boolean (is_truthy rv))
         | .error e => .error e)) := by
  constructor
  · intro hnt
    constructor
    · rw [eval_and_eq, evaluate_and, hl]
      simp [hnt]
    · rw [eval_or_eq, evaluate_or, hl]
      simp only [hnt, Bool.false_eq_true, if_false]
      cases evaluate F r row schema <;> rfl
  · intro ht
    constructor
    · rw [eval_or_eq, evaluate_or, hl]
      simp [ht]
    · rw [eval_and_eq, evaluate_and, hl]
      simp only [ht, Bool.not_true, Bool.false_eq_true, if_false]
      cases evaluate F r row schema <;> rfl

/-- C8 witness: `FALSE AND (1/0 = 0)` returns `Boolean(false)` even
though its right side would raise a division-by-zero error. -/
theorem C8_witness :
    ExpressionEvaluator.evaluate trivFloatOps
      (.BinaryOp (.Literal (.Boolean false)) .And
        (.BinaryOp (.BinaryOp (.Literal (.Integer 1)) .Divide (.Literal (.Integer 0)))
          .Equal (.Literal (.Integer 0))))
      (Row.new []) ⟨[]⟩ = .ok (.Boolean false) :=
  ((C8_theorem trivFloatOps (.Literal (.Boolean false)) _ (Row.new []) ⟨[]⟩
      (.Boolean false) rfl).1 rfl).1

/-- C1 counterexample: `WHERE age > 0 OR age / 0 = 0` divides by zero on
the scanned row `age = 0`, yet `execute_physical_plan` succeeds with the
partial result `[rowAge30]`: the evaluator's error is swallowed by
`.unwrap_or(false)` instead of surfacing. -/
theorem C1_counterexample :
    PredicateEvaluator.evaluate trivFloatOps divPredicate rowAge0 usersSchema
      = .error "Division by zero" ∧
    execute_physical_plan trivFloatOps usersDb (.filter divPredicate (.seqScan "users"))
      = .ok [rowAge30] := by
  constructor <;> rfl

/-- C1 (amended): the Filter operator never surfaces a predicate
evaluation error; a row is kept iff its predicate evaluates to
`Ok(true)`, so rows on which evaluation errors are silently dropped. -/
theorem C1_theorem (F : FloatOps) (db : DatabaseState) (predicate : Expression)
    (input : PhysicalPlan) (table_name : String) (schema : Schema) (trows rows : List Row)
    (h1 : input.extract_table_name = .ok table_name)
    (h2 : db.tables table_name = some (schema, trows))
    (h3 : execute_physical_plan F db input = .ok rows) :
    execute_physical_plan F db (.filter predicate input)
      = .ok (rows.filter fun row =>
          match PredicateEvaluator.evaluate F predicate row schema with
          | .ok b => b
          | .error _ => false) ∧
    (∀ row, row ∈ (rows.filter fun row =>
          match PredicateEvaluator.evaluate F predicate row schema with
          | .ok b => b
          | .error _ => false) ↔
        row ∈ rows ∧ PredicateEvaluator.evaluate F predicate row schema = .ok true) := by
  constructor
  · simp [execute_physical_plan, h1, h2, h3]
  · intro row
    rw [List.mem_filter]
    constructor
    · rintro ⟨hmem, hmatch⟩
      refine ⟨hmem, ?_⟩
      cases heval : PredicateEvaluator.evaluate F predicate row schema with
      | ok b =>
        rw [heval] at hmatch
        cases b
        · simp at hmatch
        · rfl
      | error e => rw [heval] at hmatch; simp at hmatch
    · rintro ⟨hmem, heval⟩
      exact ⟨hmem, by rw [heval]⟩

theorem C1_witness :
    execute_physical_plan trivFloatOps usersDb (.filter divPredicate (.seqScan "users"))
      = .ok ([rowAge0, rowAge30].filter fun row =>
          match PredicateEvaluator.evaluate trivFloatOps divPredicate row usersSchema with
          | .ok b => b
          | .error _ => false) :=
  (C1_theorem trivFloatOps usersDb divPredicate (.seqScan "users") "users" usersSchema
    [rowAge0, rowAge30] [rowAge0, rowAge30] rfl rfl rfl).1

/-! ## Claim theorems: page layer (C3, C9) -/

theorem addData_fresh_single : (Page.new 0 .table).add_data [7] = some (0, pAdded) := by
  simp only [Page.add_data, Page.new, PageHeader.new, Page.free_space, PageHeader.SIZE,
    PAGE_SIZE, ItemPointer.SIZE, listCopy, ItemPointer.new, ItemPointer.to_bytes, u16ToLe,
    List.length_replicate, List.length_cons, List.length_nil, pAdded]
  norm_num [List.drop_append_of_le_length, List.drop_replicate]

theorem deleteItem_pAdded : pAdded.delete_item 0 = some pDeleted := by
  simp only [Page.delete_item, pAdded, pDeleted, listSlice, listCopy, ItemPointer.SIZE,
    ItemPointer.from_bytes, ItemPointer.mark_deleted, ItemPointer.to_bytes, u16ToLe, u16FromLe,
    ItemPointer.DELETED_FLAG]
  norm_num

theorem getItem_pDeleted : pDeleted.get_item 0 = some [7] := by
  simp only [Page.get_item, Page.item_pointers, pDeleted, pAdded, listSlice, ItemPointer.SIZE,
    ItemPointer.from_bytes, u16FromLe, PageHeader.SIZE]
  norm_num [List.drop_append_of_le_length, List.drop_replicate]

theorem flag_pDeleted :
    (pDeleted.item_pointers.get? 0).map ItemPointer.is_deleted = some true := by
  simp only [Page.item_pointers, pDeleted, pAdded, listSlice, ItemPointer.SIZE,
    ItemPointer.from_bytes, u16FromLe, ItemPointer.is_deleted, ItemPointer.DELETED_FLAG]
  norm_num
  decide

/-- C3 counterexample: after `add_data([7])` and `delete_item(0)` on a
fresh page, the pointer is tombstoned yet `get_item(0)` still returns the
payload `[7]` instead of failing with *item not found*. -/
theorem C3_counterexample :
    ((Page.new 0 .table).add_data [7]).bind (fun x => (x.2.delete_item 0).map fun p2 =>
      ((p2.item_pointers.get? 0).map ItemPointer.is_deleted, p2.get_item 0))
    = some (some true, some [7]) := by
  rw [addData_fresh_single, Option.some_bind, deleteItem_pAdded, Option.map_some']
  rw [flag_pDeleted, getItem_pDeleted]

theorem listCopy_length (dst src : List Nat) (o : Nat) (h : o + src.length ≤ dst.length) :
    (listCopy dst o src).length = dst.length := by
  simp [listCopy]
  omega

theorem item_pointers_length (p : Page) :
    p.item_pointers.length = min p.header.item_count (p.data.length / ItemPointer.SIZE) := by
  simp [Page.item_pointers]

/-- C3 (amended): `get_item(id)` succeeds iff `id < item_count`,
regardless of the deleted flag; in particular it still succeeds after
`delete_item(id)`. -/
theorem C3_theorem (p : Page) (item_id : Nat)
    (hwf : p.header.item_count * ItemPointer.SIZE ≤ p.data.length) :
    ((p.get_item item_id).isSome ↔ item_id < p.header.item_count) ∧
    (∀ p', p.delete_item item_id = some p' → (p'.get_item item_id).isSome) := by
  have hmin : min p.header.item_count (p.data.length / ItemPointer.SIZE)
      = p.header.item_count := by
    have : p.header.item_count ≤ p.data.length / ItemPointer.SIZE := by
      rw [Nat.le_div_iff_mul_le (by norm_num [ItemPointer.SIZE])]
      exact hwf
    omega
  have hiff : ∀ q : Page, q.header.item_count * ItemPointer.SIZE ≤ q.data.length →
      ((q.get_item item_id).isSome ↔ item_id < q.header.item_count) := by
    intro q hq
    have hqmin : min q.header.item_count (q.data.length / ItemPointer.SIZE)
        = q.header.item_count := by
      have : q.header.item_count ≤ q.data.length / ItemPointer.SIZE := by
        rw [Nat.le_div_iff_mul_le (by norm_num [ItemPointer.SIZE])]
        exact hq
      omega
    rw [Page.get_item, Option.isSome_map']
    rw [← Option.ne_none_iff_isSome, ne_eq, List.get?_eq_none]
    rw [item_pointers_length, hqmin]
    omega
  refine ⟨hiff p hwf, ?_⟩
  intro p' hdel
  rw [Page.delete_item] at hdel
  split at hdel
  · exact absurd hdel (by simp)
  · rename_i hlt
    have hp' : p'.header = p.header ∧ p'.data.length = p.data.length := by
      cases hdel.symm
      constructor
      · rfl
      · apply listCopy_length
        have h5 : (ItemPointer.from_bytes
            (listSlice p.data (item_id * ItemPointer.SIZE) ItemPointer.SIZE)).mark_deleted.to_bytes.length = 5 := rfl
        rw [h5]
        have : item_id + 1 ≤ p.header.item_count := by omega
        calc item_id * ItemPointer.SIZE + 5 = (item_id + 1) * ItemPointer.SIZE := by
              simp [ItemPointer.SIZE]; ring
          _ ≤ p.header.item_count * ItemPointer.SIZE := by
              exact Nat.mul_le_mul_right _ this
          _ ≤ p.data.length := hwf
    rw [hiff p' (by rw [hp'.1, hp'.2]; exact hwf), hp'.1]
    omega

theorem PageHeader.round_trip (h : PageHeader)
    (hty : h.page_type = .table ∨ h.page_type = .catalog)
    (hpid : h.page_id < 2 ^ 32) (hlo : h.lower < 2 ^ 16) (hup : h.upper < 2 ^ 16)
    (hic : h.item_count < 2 ^ 16) (hsp : h.special < 2 ^ 16) :
    ∃ bs, h.to_bytes = some bs ∧ bs.length = PageHeader.SIZE ∧
      PageHeader.from_bytes bs = some h := by
  obtain ⟨pid, pt, lo, up, ic, sp⟩ := h
  simp only at hpid hlo hup hic hsp
  obtain hty | hty := hty <;> simp only at hty <;> subst hty <;>
    refine ⟨_, rfl, ?_, ?_⟩ <;>
    simp [PageHeader.to_bytes, PageHeader.from_bytes, PageHeader.pageTypeCode,
      PageHeader.SIZE, u32ToLe, u16ToLe, u32FromLe, u16FromLe, List.getD] <;>
    refine ⟨?_, ?_, ?_, ?_, ?_⟩ <;> omega

/-- C9: page serialization round trip: for every valid page (type `Table`
or `Catalog`, header fields in `u32`/`u16` range, full-size data region),
`Page::from_bytes(p.to_bytes()) == p`. -/
theorem C9_theorem (p : Page)
    (hty : p.header.page_type = .table ∨ p.header.page_type = .catalog)
    (hpid : p.header.page_id < 2 ^ 32) (hlo : p.header.lower < 2 ^ 16)
    (hup : p.header.upper < 2 ^ 16) (hic : p.header.item_count < 2 ^ 16)
    (hsp : p.header.special < 2 ^ 16) :
    ∃ bs, p.to_bytes = some bs ∧ Page.from_bytes bs = some p := by
  obtain ⟨hbs, hto, hlen, hfrom⟩ := PageHeader.round_trip p.header hty hpid hlo hup hic hsp
  refine ⟨hbs ++ p.data, ?_, ?_⟩
  · rw [Page.to_bytes, hto, Option.map_some']
  · rw [Page.from_bytes]
    rw [List.take_append_of_le_length (by omega), List.take_of_length_le (by omega)]
    rw [hfrom, Option.map_some']
    rw [List.drop_append_of_le_length (by omega), List.drop_eq_nil_of_le (by omega)]
    simp

theorem C9_witness :
    ∃ bs, (Page.new 3 .catalog).to_bytes = some bs ∧
      Page.from_bytes bs = some (Page.new 3 .catalog) :=
  C9_theorem (Page.new 3 .catalog) (Or.inr rfl) (by norm_num [Page.new, PageHeader.new])
    (by norm_num [Page.new, PageHeader.new, PageHeader.SIZE])
    (by norm_num [Page.new, PageHeader.new, PAGE_SIZE])
    (by norm_num [Page.new, PageHeader.new])
    (by norm_num [Page.new, PageHeader.new, PAGE_SIZE])

theorem getFreePage_poolFresh :
    BufferManager.get_free_page poolFresh fileEmpty 8167
      = .ok (0, Page.new 0 .table, poolFresh) := by
  rw [BufferManager.get_free_page]
  have hfind : (List.range BufferManager.max_pages).find? (fun page_id =>
      match poolFresh page_id with
      | some p => decide (p.free_space > 8167)
      | none => true) = some 0 := by
    have h1000 : BufferManager.max_pages = 999 + 1 := rfl
    rw [h1000, List.range_succ_eq_map]
    apply List.find?_cons_of_pos
    norm_num [poolFresh, Page.free_space, Page.new, PageHeader.new, PAGE_SIZE, PageHeader.SIZE]
  rw [hfind]
  rfl

/-- C4 counterexample: with one fresh cached page (free space 8168) and
`needed_bytes = 8167`, `get_free_page` returns that page -- its free space
8168 exceeds 8167 but is below `8167 + 5` -- and `add_data` of an
8167-byte payload on it fails with *not enough space*. -/
theorem C4_counterexample :
    BufferManager.get_free_page poolFresh fileEmpty 8167
      = .ok (0, Page.new 0 .table, poolFresh) ∧
    (Page.new 0 .table).free_space = 8168 ∧
    ¬ 8167 + ItemPointer.SIZE ≤ (Page.new 0 .table).free_space ∧
    (Page.new 0 .table).add_data (List.replicate 8167 0) = none := by
  refine ⟨getFreePage_poolFresh, rfl, ?_, ?_⟩
  · norm_num [ItemPointer.SIZE, Page.free_space, Page.new, PageHeader.new, PAGE_SIZE,
      PageHeader.SIZE]
  · simp only [Page.add_data, List.length_replicate]
    rw [if_pos]
    norm_num [Page.free_space, Page.new, PageHeader.new, PAGE_SIZE, PageHeader.SIZE,
      ItemPointer.SIZE]

/-- C4 (amended): `get_free_page` guarantees `free_space() > needed_bytes`
only for pages taken from the cache; an uncached id yields the page
loaded from file (no space check) or a fresh empty page (free space
`8168 = PAGE_SIZE - 24`); the *no free page* error occurs exactly when
every id in `0..1000` is cached with `free_space() ≤ needed_bytes`. -/
theorem C4_theorem (pool file : Nat → Option Page) (size : Nat) :
    ((∃ e, BufferManager.get_free_page pool file size = .error e) ↔
      ∀ id < BufferManager.max_pages, ∃ p, pool id = some p ∧ p.free_space ≤ size) ∧
    (∀ id p pool', BufferManager.get_free_page pool file size = .ok (id, p, pool') →
      (pool id = some p ∧ size < p.free_space) ∨
      (pool id = none ∧ file id = some p) ∨
      (pool id = none ∧ file id = none ∧ p = Page.new id .table ∧
        p.free_space = PAGE_SIZE - PageHeader.SIZE)) := by
  constructor
  · constructor
    · rintro ⟨e, he⟩ id hid
      rw [BufferManager.get_free_page] at he
      cases hfind : (List.range BufferManager.max_pages).find? (fun page_id =>
          match pool page_id with
          | some p => decide (p.free_space > size)
          | none => true) with
      | some found =>
        rw [hfind] at he
        cases hpool : pool found <;> simp [hpool] at he
      | none =>
        have hmem : id ∈ List.range BufferManager.max_pages := List.mem_range.mpr hid
        have hpred := List.find?_eq_none.mp hfind id hmem
        cases hpool : pool id with
        | some p =>
          rw [hpool] at hpred
          simp at hpred
          exact ⟨p, rfl, hpred⟩
        | none => rw [hpool] at hpred; simp at hpred
    · intro hall
      rw [BufferManager.get_free_page]
      cases hfind : (List.range BufferManager.max_pages).find? (fun page_id =>
          match pool page_id with
          | some p => decide (p.free_space > size)
          | none => true) with
      | some found =>
        have hmem := List.mem_range.mp (List.mem_of_find?_eq_some hfind)
        have hpred := List.find?_some hfind
        obtain ⟨p, hp, hle⟩ := hall found hmem
        rw [hp] at hpred
        simp at hpred
        omega
      | none => exact ⟨_, rfl⟩
  · intro id p pool' hok
    rw [BufferManager.get_free_page] at hok
    cases hfind : (List.range BufferManager.max_pages).find? (fun page_id =>
        match pool page_id with
        | some p => decide (p.free_space > size)
        | none => true) with
    | none => rw [hfind] at hok; simp at hok
    | some found =>
      rw [hfind] at hok
      have hpred := List.find?_some hfind
      cases hpool : pool found with
      | some p0 =>
        rw [hpool] at hpred
        simp only [decide_eq_true_eq] at hpred
        simp [hpool] at hok
        obtain ⟨h1, h2, h3⟩ := hok
        subst h1
        left
        exact ⟨by rw [hpool, h2], by rw [← h2]; omega⟩
      | none =>
        cases hfile : file found with
        | some loaded =>
          simp [hpool, hfile] at hok
          obtain ⟨h1, h2, h3⟩ := hok
          subst h1
          right; left
          exact ⟨hpool, by rw [hfile, h2]⟩
        | none =>
          simp [hpool, hfile] at hok
          obtain ⟨h1, h2, h3⟩ := hok
          subst h1
          right; right
          refine ⟨hpool, hfile, h2.symm, ?_⟩
          rw [← h2]
          rfl

theorem C4_witness :
    poolFresh 0 = some (Page.new 0 .table) ∧ 8167 < (Page.new 0 .table).free_space := by
  have h := (C4_theorem poolFresh fileEmpty 8167).2 0 (Page.new 0 .table) poolFresh
    getFreePage_poolFresh
  rcases h with ⟨h1, h2⟩ | ⟨h1, _⟩ | ⟨h1, _, _, _⟩
  · exact ⟨h1, h2⟩
  · exact absurd h1 (by simp [poolFresh])
  · exact absurd h1 (by simp [poolFresh])

theorem PageHeader.to_bytes_length (h : PageHeader) (bs : List Nat)
    (hbs : h.to_bytes = some bs) : bs.length = PageHeader.SIZE := by
  rw [PageHeader.to_bytes] at hbs
  cases hc : PageHeader.pageTypeCode h.page_type with
  | none => rw [hc] at hbs; simp at hbs
  | some code =>
    rw [hc, Option.map_some'] at hbs
    cases hbs.symm
    simp [u32ToLe, u16ToLe, PageHeader.SIZE]

theorem Page.serialized_length (p : Page) (bs : List Nat) (hbs : p.to_bytes = some bs) :
    bs.length = PageHeader.SIZE + p.data.length := by
  rw [Page.to_bytes] at hbs
  cases hh : p.header.to_bytes with
  | none => rw [hh] at hbs; simp at hbs
  | some hb =>
    rw [hh, Option.map_some'] at hbs
    cases hbs.symm
    simp [PageHeader.to_bytes_length p.header hb hh]

/-- C5: saving page 1 truncates the table file (`File::create`), so page
0's previously stored byte range is zeroed rather than left unchanged:
byte 5 of the file (the low byte of page 0's `lower` field, `24`) becomes
`0`, while the new file does store page 1's image at offset `PAGE_SIZE`. -/
theorem C5_theorem :
    (((Page.new 0 .table).to_bytes).getD []).getD 5 0 = 24 ∧
    ((BufferManager.save_page_file (Page.new 1 .table) 1).getD []).getD 5 0 = 0 ∧
    listSlice ((BufferManager.save_page_file (Page.new 1 .table) 1).getD [])
        PAGE_SIZE PAGE_SIZE
      = ((Page.new 1 .table).to_bytes).getD [] := by
  refine ⟨rfl, rfl, ?_⟩
  cases hbs : (Page.new 1 .table).to_bytes with
  | none =>
    rw [Page.to_bytes, Option.map_eq_none'] at hbs
    rw [show (Page.new 1 .table).header = PageHeader.new 1 .table from rfl] at hbs
    exact absurd hbs (by simp [PageHeader.to_bytes, PageHeader.pageTypeCode, PageHeader.new])
  | some bs =>
    have hlen : bs.length = PAGE_SIZE := by
      have h1 := Page.serialized_length _ _ hbs
      rw [show (Page.new 1 .table).data = List.replicate (PAGE_SIZE - PageHeader.SIZE) 0
        from rfl, List.length_replicate] at h1
      rw [h1]
      norm_num [PAGE_SIZE, PageHeader.SIZE]
    rw [BufferManager.save_page_file, hbs, Option.map_some', Option.getD_some,
      Option.getD_some, listSlice, one_mul]
    rw [List.drop_left' (by simp)]
    exact List.take_of_length_le (by omega)

theorem C3_witness : (pDeleted.get_item 0).isSome :=
  (C3_theorem pAdded 0 (by norm_num [pAdded, ItemPointer.SIZE])).2 pDeleted deleteItem_pAdded

/-! ## Claim theorems: row codec (C6) -/

theorem u64_round_trip (x : Nat) (h : x < 2 ^ 64) : u64FromLe (u64ToLe x) = x := by
  simp only [u64FromLe, u64ToLe, List.getD]
  simp
  omega

theorem i64_round_trip (n : Int) (h1 : -(2 ^ 63) ≤ n) (h2 : n < 2 ^ 63) :
    i64FromLe (i64ToLe n) = n := by
  rw [i64ToLe]
  have hm : ((n % ((2 : Nat) ^ 64 : Nat) : Int)).toNat < 2 ^ 64 := by omega
  rw [i64FromLe]
  simp only [u64_round_trip _ hm]
  split <;> omega

theorem listSlice_append (pre l rest : List Nat) :
    listSlice (pre ++ (l ++ rest)) pre.length l.length = l := by
  rw [listSlice, List.drop_left, List.take_left]

theorem getD_append_add (pre l : List Nat) (i : Nat) (d : Nat) :
    (pre ++ l).getD (pre.length + i) d = l.getD i d := by
  rw [List.getD_eq_getD_get?, List.getD_eq_getD_get?, List.get?_eq_getElem?,
    List.get?_eq_getElem?, List.getElem?_append_right (by omega)]
  rw [Nat.add_sub_cancel_left]

theorem getD_append_left (l1 l2 : List Nat) (i d : Nat) (h : i < l1.length) :
    (l1 ++ l2).getD i d = l1.getD i d := by
  rw [List.getD_eq_getD_get?, List.getD_eq_getD_get?, List.get?_eq_getElem?,
    List.get?_eq_getElem?, List.getElem?_append_left h]

theorem u32_round_trip (x : Nat) (h : x < 2 ^ 32) :
    u32FromLe (x % 256) (x / 256 % 256) (x / 256 ^ 2 % 256) (x / 256 ^ 3 % 256) = x := by
  simp only [u32FromLe]
  omega

theorem decodeValue_encodeValue (dt : Codec.DataType) (v : Codec.Value)
    (payload pre rest : List Nat) (henc : Codec.encodeValue dt v = some payload)
    (hwf : v.wf) :
    Codec.decodeValue dt (pre ++ (payload ++ rest)) pre.length
      = some (v, pre.length + payload.length) := by
  have htot : (pre ++ (payload ++ rest)).length = pre.length + payload.length + rest.length := by
    simp; omega
  cases dt <;> cases v <;>
    simp only [Codec.encodeValue, Option.some.injEq] at henc <;>
    try exact Option.noConfusion henc
  case int64.int64 n =>
    subst henc
    rw [Codec.decodeValue]
    rw [if_neg (by rw [htot]; simp [i64ToLe, u64ToLe]; try omega)]
    have hl : (i64ToLe n).length = 8 := by simp [i64ToLe, u64ToLe]
    rw [show listSlice (pre ++ (i64ToLe n ++ rest)) pre.length 8
        = i64ToLe n from hl ▸ listSlice_append pre (i64ToLe n) rest]
    rw [i64_round_trip n hwf.1 hwf.2, hl]
  case float64.float64 bits =>
    subst henc
    rw [Codec.decodeValue]
    rw [if_neg (by rw [htot]; simp [u64ToLe]; try omega)]
    have hl : (u64ToLe bits).length = 8 := by simp [u64ToLe]
    rw [show listSlice (pre ++ (u64ToLe bits ++ rest)) pre.length 8
        = u64ToLe bits from hl ▸ listSlice_append pre (u64ToLe bits) rest]
    rw [u64_round_trip bits hwf, hl]
  case bool.bool b =>
    subst henc
    rw [Codec.decodeValue]
    rw [if_neg (by rw [htot]; simp; try omega)]
    rw [show pre.length = pre.length + 0 from rfl, getD_append_add]
    cases b <;> simp
  case text.text s =>
    subst henc
    obtain ⟨hutf, hlt⟩ := hwf
    have hlen4 : (u32ToLe s.length).length = 4 := by simp [u32ToLe]
    rw [Codec.decodeValue]
    rw [if_neg (by rw [htot]; simp [u32ToLe]; try omega)]
    have hgd : ∀ i, i < 4 →
        (pre ++ ((u32ToLe s.length ++ s) ++ rest)).getD (pre.length + i) 0
          = (u32ToLe s.length).getD i 0 := by
      intro i hi
      rw [getD_append_add, List.append_assoc, getD_append_left _ _ _ _ (by omega)]
    rw [show (pre ++ ((u32ToLe s.length ++ s) ++ rest)).getD pre.length 0
        = (u32ToLe s.length).getD 0 0 by
      have h0 := hgd 0 (by norm_num); simpa using h0]
    rw [hgd 1 (by norm_num), hgd 2 (by norm_num), hgd 3 (by norm_num)]
    have hfrom : u32FromLe ((u32ToLe s.length).getD 0 0) ((u32ToLe s.length).getD 1 0)
        ((u32ToLe s.length).getD 2 0) ((u32ToLe s.length).getD 3 0) = s.length := by
      rw [show (u32ToLe s.length).getD 0 0 = s.length % 256 from rfl,
        show (u32ToLe s.length).getD 1 0 = s.length / 256 % 256 from rfl,
        show (u32ToLe s.length).getD 2 0 = s.length / 256 ^ 2 % 256 from rfl,
        show (u32ToLe s.length).getD 3 0 = s.length / 256 ^ 3 % 256 from rfl]
      exact u32_round_trip s.length hlt
    rw [hfrom]
    rw [if_neg (by rw [htot]; simp [u32ToLe]; try omega)]
    have hslice : listSlice (pre ++ ((u32ToLe s.length ++ s) ++ rest))
        (pre.length + 4) s.length = s := by
      have h1 : pre ++ ((u32ToLe s.length ++ s) ++ rest)
          = (pre ++ u32ToLe s.length) ++ (s ++ rest) := by simp
      have h2 : pre.length + 4 = (pre ++ u32ToLe s.length).length := by simp [u32ToLe]
      rw [h1, h2, listSlice_append]
    rw [hslice, if_pos hutf]
    simp only [List.length_append, hlen4, Option.some.injEq, Prod.mk.injEq]
    exact ⟨by trivial, by omega⟩
  case varChar.text max_length s =>
    split at henc
    · simp only [Option.some.injEq] at henc
      subst henc
      obtain ⟨hutf, hlt⟩ := hwf
      have hlen4 : (u32ToLe s.length).length = 4 := by simp [u32ToLe]
      rw [Codec.decodeValue]
      rw [if_neg (by rw [htot]; simp [u32ToLe]; try omega)]
      have hgd : ∀ i, i < 4 →
          (pre ++ ((u32ToLe s.length ++ s) ++ rest)).getD (pre.length + i) 0
            = (u32ToLe s.length).getD i 0 := by
        intro i hi
        rw [getD_append_add, List.append_assoc, getD_append_left _ _ _ _ (by omega)]
      rw [show (pre ++ ((u32ToLe s.length ++ s) ++ rest)).getD pre.length 0
          = (u32ToLe s.length).getD 0 0 by
        have h0 := hgd 0 (by norm_num); simpa using h0]
      rw [hgd 1 (by norm_num), hgd 2 (by norm_num), hgd 3 (by norm_num)]
      have hfrom : u32FromLe ((u32ToLe s.length).getD 0 0) ((u32ToLe s.length).getD 1 0)
          ((u32ToLe s.length).getD 2 0) ((u32ToLe s.length).getD 3 0) = s.length := by
        rw [show (u32ToLe s.length).getD 0 0 = s.length % 256 from rfl,
          show (u32ToLe s.length).getD 1 0 = s.length / 256 % 256 from rfl,
          show (u32ToLe s.length).getD 2 0 = s.length / 256 ^ 2 % 256 from rfl,
          show (u32ToLe s.length).getD 3 0 = s.length / 256 ^ 3 % 256 from rfl]
        exact u32_round_trip s.length hlt
      rw [hfrom]
      rw [if_neg (by rw [htot]; simp [u32ToLe]; try omega)]
      have hslice : listSlice (pre ++ ((u32ToLe s.length ++ s) ++ rest))
          (pre.length + 4) s.length = s := by
        have h1 : pre ++ ((u32ToLe s.length ++ s) ++ rest)
            = (pre ++ u32ToLe s.length) ++ (s ++ rest) := by simp
        have h2 : pre.length + 4 = (pre ++ u32ToLe s.length).length := by simp [u32ToLe]
        rw [h1, h2, listSlice_append]
      rw [hslice, if_pos hutf]
      simp only [List.length_append, hlen4, Option.some.injEq, Prod.mk.injEq]
      exact ⟨by trivial, by omega⟩
    · exact Option.noConfusion henc

theorem set_null_spec (bytes : List Nat) (index : Nat) (h : index / 8 < bytes.length) :
    ∃ bytes', Codec.set_null bytes index = some bytes' ∧ bytes'.length = bytes.length ∧
      ∀ k, Codec.is_null bytes' k = (Codec.is_null bytes k || decide (k = index)) := by
  have hsome : Codec.set_null bytes index
      = some (bytes.set (index / 8) (bytes.getD (index / 8) 0 ||| 1 <<< (index % 8))) := by
    rw [Codec.set_null, if_pos h]
  refine ⟨_, hsome, by simp, ?_⟩
  intro k
  by_cases hk : bytes.length ≤ k / 8
  · have hne : ¬ k = index := by
      intro hki
      subst hki
      omega
    simp only [Codec.is_null, List.length_set]
    rw [if_pos hk, if_pos hk]
    simp [hne]
  · by_cases heq : k / 8 = index / 8
    · have hget : (bytes.set (index / 8)
          (bytes.getD (index / 8) 0 ||| 1 <<< (index % 8))).getD (k / 8) 0
          = bytes.getD (index / 8) 0 ||| 1 <<< (index % 8) := by
        rw [heq, List.getD_eq_getD_get?, List.get?_eq_getElem?, List.getElem?_set_self h]
        rfl
      simp only [Codec.is_null, List.length_set]
      rw [if_neg hk, if_neg hk, hget, heq]
      rw [Nat.shiftLeft_eq, Nat.one_mul, Nat.testBit_or, Nat.testBit_two_pow]
      have hdec : (decide (index % 8 = k % 8)) = (decide (k = index)) := by
        apply Bool.decide_congr
        omega
      rw [hdec]
    · have hget : (bytes.set (index / 8)
          (bytes.getD (index / 8) 0 ||| 1 <<< (index % 8))).getD (k / 8) 0
          = bytes.getD (k / 8) 0 := by
        rw [List.getD_eq_getD_get?, List.get?_eq_getElem?, List.getElem?_set_ne (by omega),
          ← List.get?_eq_getElem?, ← List.getD_eq_getD_get?]
      have hne : ¬ k = index := by
        intro hki
        subst hki
        exact heq rfl
      simp only [Codec.is_null, List.length_set]
      rw [if_neg hk, if_neg hk, hget]
      simp [hne]

theorem setNulls_spec (vs : List Codec.Value) (bytes : List Nat) (i : Nat)
    (h : i + vs.length ≤ 8 * bytes.length) :
    ∃ bytes', Codec.setNulls bytes vs i = some bytes' ∧ bytes'.length = bytes.length ∧
      ∀ k, Codec.is_null bytes' k = (Codec.is_null bytes k || Codec.nullAt vs i k) := by
  induction vs generalizing bytes i with
  | nil =>
    exact ⟨bytes, rfl, rfl, fun k => by simp [Codec.nullAt]⟩
  | cons v vs ih =>
    cases hv : v with
    | null =>
      have hdiv : i / 8 < bytes.length := by
        simp only [List.length_cons] at h
        omega
      obtain ⟨b1, hb1, hlen1, hbits1⟩ := set_null_spec bytes i hdiv
      obtain ⟨b2, hb2, hlen2, hbits2⟩ := ih b1 (i + 1) (by
        simp only [List.length_cons] at h
        omega)
      refine ⟨b2, ?_, by omega, ?_⟩
      · rw [Codec.setNulls, hb1]
        exact hb2
      · intro k
        rw [hbits2, hbits1, Codec.nullAt]
        simp [Codec.Value.isNull, Bool.or_assoc]
    | int64 n =>
      obtain ⟨b2, hb2, hlen2, hbits2⟩ := ih bytes (i + 1) (by
        simp only [List.length_cons] at h
        omega)
      refine ⟨b2, by rw [Codec.setNulls] <;> first | exact hb2 | simp, hlen2, ?_⟩
      intro k
      rw [hbits2, Codec.nullAt]
      simp [Codec.Value.isNull]
    | float64 bits =>
      obtain ⟨b2, hb2, hlen2, hbits2⟩ := ih bytes (i + 1) (by
        simp only [List.length_cons] at h
        omega)
      refine ⟨b2, by rw [Codec.setNulls] <;> first | exact hb2 | simp, hlen2, ?_⟩
      intro k
      rw [hbits2, Codec.nullAt]
      simp [Codec.Value.isNull]
    | text s =>
      obtain ⟨b2, hb2, hlen2, hbits2⟩ := ih bytes (i + 1) (by
        simp only [List.length_cons] at h
        omega)
      refine ⟨b2, by rw [Codec.setNulls] <;> first | exact hb2 | simp, hlen2, ?_⟩
      intro k
      rw [hbits2, Codec.nullAt]
      simp [Codec.Value.isNull]
    | bool b =>
      obtain ⟨b2, hb2, hlen2, hbits2⟩ := ih bytes (i + 1) (by
        simp only [List.length_cons] at h
        omega)
      refine ⟨b2, by rw [Codec.setNulls] <;> first | exact hb2 | simp, hlen2, ?_⟩
      intro k
      rw [hbits2, Codec.nullAt]
      simp [Codec.Value.isNull]

theorem nullAt_lt (vs : List Codec.Value) (i k : Nat) (h : k < i) :
    Codec.nullAt vs i k = false := by
  induction vs generalizing i with
  | nil => rfl
  | cons v vs ih =>
    rw [Codec.nullAt]
    simp [show ¬ (k = i) from by omega, ih (i + 1) (by omega)]

theorem nullAt_get (vs : List Codec.Value) (i j : Nat) :
    Codec.nullAt vs i (i + j) = ((vs.get? j).map Codec.Value.isNull).getD false := by
  induction vs generalizing i j with
  | nil => simp [Codec.nullAt]
  | cons v vs ih =>
    cases j with
    | zero =>
      rw [Codec.nullAt, show i + 0 = i from rfl, nullAt_lt vs (i + 1) i (by omega)]
      simp
    | succ j =>
      rw [Codec.nullAt]
      have h1 : i + (j + 1) = (i + 1) + j := by omega
      have h2 : ¬ (i + (j + 1) = i) := by omega
      rw [h1, ih (i + 1) j]
      simp [h2, show (i + 1) + j = i + (j + 1) from by omega]

theorem encodeValue_of_compat (v : Codec.Value) (dt : Codec.DataType)
    (hnn : v ≠ .null) (hc : v.is_compatible_with dt = true) :
    ∃ payload, Codec.encodeValue dt v = some payload := by
  cases v <;> cases dt <;> simp_all [Codec.Value.is_compatible_with, Codec.encodeValue]

theorem encodePayloads_some (vs : List Codec.Value) (cols : List Codec.ColumnDef)
    (hc : ∀ p ∈ vs.zip cols, p.1 ≠ .null → p.1.is_compatible_with p.2.data_type = true) :
    ∃ pb, Codec.encodePayloads (vs.zip cols) = some pb := by
  induction vs generalizing cols with
  | nil => exact ⟨[], rfl⟩
  | cons v vs ih =>
    cases cols with
    | nil => exact ⟨[], rfl⟩
    | cons c cs =>
      have htail := ih cs (fun p hp hnn => hc p (by simp [hp]) hnn)
      obtain ⟨tail, htail⟩ := htail
      cases hv : v with
      | null =>
        refine ⟨tail, ?_⟩
        rw [List.zip_cons_cons, Codec.encodePayloads]
        exact htail
      | int64 n =>
        obtain ⟨payload, hp⟩ := encodeValue_of_compat v c.data_type (by simp [hv])
          (hc (v, c) (by simp) (by simp [hv]))
        refine ⟨payload ++ tail, ?_⟩
        rw [List.zip_cons_cons, Codec.encodePayloads] <;> try simp
        rw [hv] at hp
        rw [hp, htail]
      | float64 bits =>
        obtain ⟨payload, hp⟩ := encodeValue_of_compat v c.data_type (by simp [hv])
          (hc (v, c) (by simp) (by simp [hv]))
        refine ⟨payload ++ tail, ?_⟩
        rw [List.zip_cons_cons, Codec.encodePayloads] <;> try simp
        rw [hv] at hp
        rw [hp, htail]
      | text s =>
        obtain ⟨payload, hp⟩ := encodeValue_of_compat v c.data_type (by simp [hv])
          (hc (v, c) (by simp) (by simp [hv]))
        refine ⟨payload ++ tail, ?_⟩
        rw [List.zip_cons_cons, Codec.encodePayloads] <;> try simp
        rw [hv] at hp
        rw [hp, htail]
      | bool b =>
        obtain ⟨payload, hp⟩ := encodeValue_of_compat v c.data_type (by simp [hv])
          (hc (v, c) (by simp) (by simp [hv]))
        refine ⟨payload ++ tail, ?_⟩
        rw [List.zip_cons_cons, Codec.encodePayloads] <;> try simp
        rw [hv] at hp
        rw [hp, htail]

theorem decodeColumns_encodePayloads (cols : List Codec.ColumnDef) :
    ∀ (vs : List Codec.Value) (bitmap pre rest pb : List Nat) (idx : Nat),
    vs.length = cols.length →
    (∀ v ∈ vs, v.wf) →
    (∀ j, Codec.is_null bitmap (idx + j) = ((vs.get? j).map Codec.Value.isNull).getD false) →
    Codec.encodePayloads (vs.zip cols) = some pb →
    Codec.decodeColumns bitmap (pre ++ (pb ++ rest)) cols idx pre.length = some vs := by
  induction cols with
  | nil =>
    intro vs bitmap pre rest pb idx hlen hwf hbit henc
    cases vs with
    | nil => rfl
    | cons v vs => simp at hlen
  | cons c cs ih =>
    intro vs bitmap pre rest pb idx hlen hwf hbit henc
    cases vs with
    | nil => simp at hlen
    | cons v vs' =>
      have hbit0 : Codec.is_null bitmap idx = v.isNull := by
        have h := hbit 0
        simpa using h
      have hbitS : ∀ j, Codec.is_null bitmap ((idx + 1) + j)
          = ((vs'.get? j).map Codec.Value.isNull).getD false := by
        intro j
        have h := hbit (j + 1)
        rw [show idx + (j + 1) = (idx + 1) + j from by omega] at h
        simpa using h
      have hlen' : vs'.length = cs.length := by simpa using hlen
      have hwfh : v.wf := hwf v (by simp)
      have hwf' : ∀ w ∈ vs', w.wf := fun w hw => hwf w (by simp [hw])
      rw [List.zip_cons_cons] at henc
      cases v with
      | null =>
        rw [Codec.encodePayloads] at henc
        rw [Codec.decodeColumns, if_pos (by rw [hbit0]; rfl)]
        rw [ih vs' bitmap pre rest pb (idx + 1) hlen' hwf' hbitS henc]
      | int64 n =>
        simp only [Codec.encodePayloads] at henc
        cases h1 : Codec.encodeValue c.data_type (.int64 n) with
        | none => rw [h1] at henc; exact Option.noConfusion henc
        | some payload =>
          rw [h1] at henc
          cases h2 : Codec.encodePayloads (vs'.zip cs) with
          | none => rw [h2] at henc; exact Option.noConfusion henc
          | some tail =>
            rw [h2] at henc
            simp only [Option.some.injEq] at henc
            subst henc
            rw [Codec.decodeColumns, if_neg (by rw [hbit0]; simp [Codec.Value.isNull])]
            rw [show pre ++ ((payload ++ tail) ++ rest) = pre ++ (payload ++ (tail ++ rest))
              from by simp]
            rw [decodeValue_encodeValue c.data_type (.int64 n) payload pre (tail ++ rest) h1 hwfh]
            have hrec := ih vs' bitmap (pre ++ payload) rest tail (idx + 1) hlen' hwf' hbitS h2
            rw [show (pre ++ payload) ++ (tail ++ rest) = pre ++ (payload ++ (tail ++ rest))
              from by simp, List.length_append] at hrec
            simp only [hrec]
      | float64 bits =>
        simp only [Codec.encodePayloads] at henc
        cases h1 : Codec.encodeValue c.data_type (.float64 bits) with
        | none => rw [h1] at henc; exact Option.noConfusion henc
        | some payload =>
          rw [h1] at henc
          cases h2 : Codec.encodePayloads (vs'.zip cs) with
          | none => rw [h2] at henc; exact Option.noConfusion henc
          | some tail =>
            rw [h2] at henc
            simp only [Option.some.injEq] at henc
            subst henc
            rw [Codec.decodeColumns, if_neg (by rw [hbit0]; simp [Codec.Value.isNull])]
            rw [show pre ++ ((payload ++ tail) ++ rest) = pre ++ (payload ++ (tail ++ rest))
              from by simp]
            rw [decodeValue_encodeValue c.data_type (.float64 bits) payload pre (tail ++ rest)
              h1 hwfh]
            have hrec := ih vs' bitmap (pre ++ payload) rest tail (idx + 1) hlen' hwf' hbitS h2
            rw [show (pre ++ payload) ++ (tail ++ rest) = pre ++ (payload ++ (tail ++ rest))
              from by simp, List.length_append] at hrec
            simp only [hrec]
      | text s =>
        simp only [Codec.encodePayloads] at henc
        cases h1 : Codec.encodeValue c.data_type (.text s) with
        | none => rw [h1] at henc; exact Option.noConfusion henc
        | some payload =>
          rw [h1] at henc
          cases h2 : Codec.encodePayloads (vs'.zip cs) with
          | none => rw [h2] at henc; exact Option.noConfusion henc
          | some tail =>
            rw [h2] at henc
            simp only [Option.some.injEq] at henc
            subst henc
            rw [Codec.decodeColumns, if_neg (by rw [hbit0]; simp [Codec.Value.isNull])]
            rw [show pre ++ ((payload ++ tail) ++ rest) = pre ++ (payload ++ (tail ++ rest))
              from by simp]
            rw [decodeValue_encodeValue c.data_type (.text s) payload pre (tail ++ rest) h1 hwfh]
            have hrec := ih vs' bitmap (pre ++ payload) rest tail (idx + 1) hlen' hwf' hbitS h2
            rw [show (pre ++ payload) ++ (tail ++ rest) = pre ++ (payload ++ (tail ++ rest))
              from by simp, List.length_append] at hrec
            simp only [hrec]
      | bool b =>
        simp only [Codec.encodePayloads] at henc
        cases h1 : Codec.encodeValue c.data_type (.bool b) with
        | none => rw [h1] at henc; exact Option.noConfusion henc
        | some payload =>
          rw [h1] at henc
          cases h2 : Codec.encodePayloads (vs'.zip cs) with
          | none => rw [h2] at henc; exact Option.noConfusion henc
          | some tail =>
            rw [h2] at henc
            simp only [Option.some.injEq] at henc
            subst henc
            rw [Codec.decodeColumns, if_neg (by rw [hbit0]; simp [Codec.Value.isNull])]
            rw [show pre ++ ((payload ++ tail) ++ rest) = pre ++ (payload ++ (tail ++ rest))
              from by simp]
            rw [decodeValue_encodeValue c.data_type (.bool b) payload pre (tail ++ rest) h1 hwfh]
            have hrec := ih vs' bitmap (pre ++ payload) rest tail (idx + 1) hlen' hwf' hbitS h2
            rw [show (pre ++ payload) ++ (tail ++ rest) = pre ++ (payload ++ (tail ++ rest))
              from by simp, List.length_append] at hrec
            simp only [hrec]

theorem is_null_zeros (n k : Nat) : Codec.is_null (List.replicate n 0) k = false := by
  rw [Codec.is_null]
  simp only [List.length_replicate]
  split
  · rfl
  · rw [List.getD_eq_getD_get?, List.get?_eq_getElem?, List.getElem?_replicate]
    split <;> simp

theorem rust_value_eq_refl (v : Codec.Value)
    (h : ∀ bits, v = Codec.Value.float64 bits → Codec.f64_is_nan bits = false) :
    Codec.Value.rust_eq v v = true := by
  cases v with
  | float64 bits =>
    rw [Codec.Value.rust_eq, Codec.rust_f64_eq, h bits rfl]
    simp
  | int64 n => simp [Codec.Value.rust_eq]
  | text s => simp [Codec.Value.rust_eq]
  | bool b => simp [Codec.Value.rust_eq]
  | null => rfl

theorem rust_values_eq_refl (vs : List Codec.Value) (h : Codec.noNaN vs) :
    Codec.rust_values_eq vs vs = true := by
  induction vs with
  | nil => rfl
  | cons v vs ih =>
    rw [Codec.rust_values_eq, Bool.and_eq_true]
    exact ⟨rust_value_eq_refl v (fun bits hv => h v (by simp) bits hv),
      ih (fun w hw bits hb => h w (by simp [hw]) bits hb)⟩

/-- C6 (amended): for every row that passes insert-time validation,
built from machine-representable values, decoding the encoding returns
the row bit-for-bit; the null bitmap sets bit `i` iff `r[i]` is `Null`;
and the Rust `==` comparison `decode(encode(r)) == r` additionally holds
whenever the row contains no NaN float (IEEE `==` makes `NaN != NaN`). -/
theorem C6_theorem (s : Codec.Schema) (row : Codec.Row)
    (hval : Codec.validate_row s row = true)
    (hwf : ∀ v ∈ row.values, v.wf) :
    ((s.encode_row row).bind s.decode_row) = some row ∧
    (∀ bytes, s.encode_row row = some bytes →
      ∀ j, Codec.is_null (bytes.take (Codec.bitmapSize s.columns.length)) j
        = ((row.values.get? j).map Codec.Value.isNull).getD false) ∧
    (Codec.noNaN row.values → Codec.rust_values_eq row.values row.values = true) := by
  rw [Codec.validate_row, Bool.and_eq_true] at hval
  obtain ⟨hlen, hall⟩ := hval
  rw [decide_eq_true_eq] at hlen
  have hcompat : ∀ p ∈ row.values.zip s.columns, p.1 ≠ .null →
      p.1.is_compatible_with p.2.data_type = true := by
    intro p hp hnn
    have h := List.all_eq_true.mp hall p hp
    obtain ⟨v, c⟩ := p
    cases v <;> simp_all
  obtain ⟨bm, hbm, hbmlen, hbmbits⟩ := setNulls_spec row.values
    (List.replicate (Codec.bitmapSize s.columns.length) 0) 0 (by
      simp only [List.length_replicate]
      rw [hlen, Codec.bitmapSize]
      omega)
  have hbmlen' : bm.length = Codec.bitmapSize s.columns.length := by
    rw [hbmlen, List.length_replicate]
  have hbits : ∀ k, Codec.is_null bm k
      = ((row.values.get? k).map Codec.Value.isNull).getD false := by
    intro k
    rw [hbmbits, is_null_zeros, Bool.false_or]
    have h := nullAt_get row.values 0 k
    rw [Nat.zero_add] at h
    exact h
  obtain ⟨pb, hpb⟩ := encodePayloads_some row.values s.columns hcompat
  have henc : s.encode_row row = some (bm ++ pb) := by
    rw [Codec.Schema.encode_row, hbm, hpb]
  have hdec : s.decode_row (bm ++ pb) = some row := by
    rw [Codec.Schema.decode_row]
    rw [if_neg (by simp [← hbmlen']; try omega)]
    rw [List.take_append_of_le_length (by omega), List.take_of_length_le (by omega)]
    have hcols := decodeColumns_encodePayloads s.columns row.values bm bm [] pb 0
      (by rw [hlen]) hwf (fun j => by rw [Nat.zero_add]; exact hbits j) hpb
    rw [List.append_nil] at hcols
    rw [show Codec.bitmapSize s.columns.length = bm.length from hbmlen'.symm, hcols]
  refine ⟨by rw [henc, Option.some_bind, hdec], ?_, rust_values_eq_refl row.values⟩
  intro bytes hb j
  rw [henc, Option.some.injEq] at hb
  subst hb
  rw [List.take_append_of_le_length (by omega), List.take_of_length_le (by omega)]
  exact hbits j

set_option maxRecDepth 10000 in
/-- C6 counterexample: the single-column row `[Float64(NaN)]` passes
insert-time validation, yet `decode(encode(row)) == row` is FALSE under
the Rust `==` (derived `PartialEq`), because IEEE equality makes
`NaN != NaN` — even though decoding returns the bit-identical row. -/
theorem C6_counterexample :
    Codec.validate_row floatSchema rowNaN = true ∧
    ((floatSchema.encode_row rowNaN).bind floatSchema.decode_row).map
      (fun r2 => Codec.rust_values_eq r2.values rowNaN.values) = some false := by
  constructor
  · decide
  · decide

theorem C6_witness :
    ((wSchema.encode_row wRow).bind wSchema.decode_row) = some wRow :=
  (C6_theorem wSchema wRow (by decide) (by decide)).1
